import Mathlib

/-!
Verification of the GameBase64 reorganizer core (gb64_reorganizer.py).

Strings are modelled as `List Char`.  The Python regular expressions used by
`parse_version_nfo` are modelled by direct recursive functions whose semantics
(leftmost match, greedy `\s*` with backtracking, lazy `(.+?)`, MULTILINE `$`)
were derived from the patterns; `\s` and `str.strip()` are modelled for the six
ASCII whitespace characters, and `str.isdigit` for the ASCII digits, which is
faithful for ASCII inputs.
-/

deriving instance DecidableEq for Except

namespace GB64

/-- Python `\s` / `str.strip()` whitespace, ASCII range. -/
def pws (c : Char) : Bool :=
  c = ' ' || c = '\t' || c = '\n' || c = '\r' || c = Char.ofNat 11 || c = Char.ofNat 12

/-- The character `{`. -/
def lbrace : Char := Char.ofNat 123

/-- The character `}`. -/
def rbrace : Char := Char.ofNat 125

def trimLeft (p : Char → Bool) (l : List Char) : List Char := l.dropWhile p

def trimRight (p : Char → Bool) (l : List Char) : List Char :=
  (l.reverse.dropWhile p).reverse

/-- Python `str.strip()` (ASCII whitespace). -/
def pstrip (l : List Char) : List Char := trimRight pws (trimLeft pws l)

/-- Membership test for `'.'` and `' '`, the argument of `.strip('. ')`. -/
def dotSpace (c : Char) : Bool := c = '.' || c = ' '

/-- Python `str.strip('. ')`. -/
def stripDotSpace (l : List Char) : List Char := trimRight dotSpace (trimLeft dotSpace l)

/-- Index of the first occurrence of `pat` as a contiguous sublist of `t`. -/
def firstOccIdx (pat : List Char) : List Char → Option Nat
  | [] => if pat.isEmpty then some 0 else none
  | c :: t => if pat.isPrefixOf (c :: t) then some 0 else (firstOccIdx pat t).map (· + 1)

/-- Python `pat in t` (substring test). -/
def occursIn (pat t : List Char) : Bool := (firstOccIdx pat t).isSome

/-- `pat` occurs in `t` starting at index `p`. -/
def occursAt (pat t : List Char) (p : Nat) : Bool := pat.isPrefixOf (t.drop p)

/-!
Model of the tail `\s*(.+?)$` (MULTILINE) of the single-line field patterns,
applied to the suffix `u` of the subject that follows the label.  The greedy
`\s*` first consumes the maximal whitespace run; if that leaves input, the lazy
`(.+?)$` captures the rest of the current line.  If the whole remaining suffix
is whitespace, the engine backtracks `\s*` to the last non-newline whitespace
character (the capture needs one non-newline character, and `$` matches before
a newline or at the end).  Returns the captured group, or `none` if the match
fails at this position.
-/
def labelTailS (u : List Char) : Option (List Char) :=
  let m := (u.takeWhile pws).length
  if m < u.length then some ((u.drop m).takeWhile (· ≠ '\n'))
  else
    let j := (u.reverse.takeWhile (· = '\n')).length
    if j = u.length then none
    else some ((u.drop (u.length - 1 - j)).takeWhile (· ≠ '\n'))

/--
Start offset chosen by `\s*` (or `\s+` when `needOne` is true) when it is
followed by `[^\n]+`, applied to the suffix `u`; `none` if no split of the
whitespace run lets the subsequent `[^\n]+` match.
-/
def chunkStartS (u : List Char) (needOne : Bool) : Option Nat :=
  let m := (u.takeWhile pws).length
  if m < u.length then (if needOne && m = 0 then none else some m)
  else
    let j := (u.reverse.takeWhile (· = '\n')).length
    if j = u.length then none
    else
      let s := u.length - 1 - j
      if needOne && s = 0 then none else some s

/--
Text matched by the continuation part `(?:\n\s+[^\n]+)*` of the genre pattern,
starting at suffix `u` (the group is a contiguous slice, so the newline and
whitespace characters between continuation lines are part of the capture).
Written with a structural fuel argument so it evaluates in the kernel: every
iteration consumes at least two characters, so `u.length` bounds the number of
iterations and `contCollect` computes the full loop.
-/
def contCollectF : Nat → List Char → List Char
  | 0, _ => []
  | fuel + 1, u =>
    match u with
    | '\n' :: v =>
      match chunkStartS v true with
      | none => []
      | some s =>
        let chunk := (v.drop s).takeWhile (· ≠ '\n')
        '\n' :: (v.take s ++ chunk ++ contCollectF fuel (v.drop (s + chunk.length)))
    | _ => []

def contCollect (u : List Char) : List Char := contCollectF u.length u

/-- Capture of `Genre:\s*([^\n]+(?:\n\s+[^\n]+)*)` at the suffix `u` following the label. -/
def genreTailS (u : List Char) : Option (List Char) :=
  match chunkStartS u false with
  | none => none
  | some s =>
    let u0 := u.drop s
    let c1 := u0.takeWhile (· ≠ '\n')
    some (c1 ++ contCollect (u0.drop c1.length))

/-- `re.search(r'LBL\s*(.+?)$', t, re.MULTILINE)` for a literal label `lbl` (no anchors). -/
def searchLabelIn (lbl : List Char) : List Char → Option (List Char)
  | [] => none
  | c :: t =>
    if lbl.isPrefixOf (c :: t) then
      match labelTailS ((c :: t).drop lbl.length) with
      | some v => some v
      | none => searchLabelIn lbl t
    else searchLabelIn lbl t

/-- `re.search(r'Genre:\s*([^\n]+(?:\n\s+[^\n]+)*)', t, ...)` (no anchors in the pattern). -/
def searchGenreIn : List Char → Option (List Char)
  | [] => none
  | c :: t =>
    if ("Genre:".toList).isPrefixOf (c :: t) then
      match genreTailS ((c :: t).drop 6) with
      | some v => some v
      | none => searchGenreIn t
    else searchGenreIn t

/--
`re.search(r'^\s*Name:\s*(.+?)$', t, re.MULTILINE)`.  The flag `atLS` records
whether the current suffix begins at a line start (start of subject or right
after a newline); `^` only matches there.  After `^`, the greedy `\s*` must end
exactly at the maximal whitespace run (a shorter run would leave a whitespace
character where `N` is required), so `Name:` is looked for right after it.
-/
def searchNameGo : List Char → Bool → Option (List Char)
  | [], _ => none
  | c :: t, atLS =>
    let hit : Option (List Char) :=
      if atLS then
        let u := c :: t
        let m := (u.takeWhile pws).length
        if ("Name:".toList).isPrefixOf (u.drop m) then labelTailS (u.drop (m + 5)) else none
      else none
    match hit with
    | some v => some v
    | none => searchNameGo t (c = '\n')

def searchNameIn (t : List Char) : Option (List Char) := searchNameGo t true

/--
`re.search(r'GAME INFO(.*?)(?:GAME HISTORY|$)', content, re.DOTALL)`, giving the
text the parser treats as the GAME INFO section: group 1 of the match when the
start marker is present (the lazy group runs to the first `GAME HISTORY` after
the marker, else to `$`, which without MULTILINE matches at the end or before a
final trailing newline), otherwise the whole content.
-/
def gameInfoSection (content : List Char) : List Char :=
  match firstOccIdx ("GAME INFO".toList) content with
  | none => content
  | some i =>
    let rest := content.drop (i + 9)
    match firstOccIdx ("GAME HISTORY".toList) rest with
    | some e => rest.take e
    | none => if rest.getLast? = some '\n' then rest.take (rest.length - 1) else rest

/-!  Genre and Published splitters (parse_version_nfo, lines 128-165). -/

/--
`re.sub(r'\s+', ' ', l)`: collapse every maximal whitespace run to one space.
The flag records whether the current position is inside a run already replaced.
-/
def collapseWsGo : Bool → List Char → List Char
  | _, [] => []
  | skipping, c :: rest =>
    if pws c then
      (if skipping then collapseWsGo true rest else ' ' :: collapseWsGo true rest)
    else c :: collapseWsGo false rest

def collapseWs (l : List Char) : List Char := collapseWsGo false l

/-- Genre split: `genre_text.split(' - ', 1)` with both parts stripped, else secondary `Other`. -/
def splitGenre (g : List Char) : List Char × List Char :=
  match firstOccIdx (" - ".toList) g with
  | some i => (pstrip (g.take i), pstrip (g.drop (i + 3)))
  | none => (g, "Other".toList)

/-- Python `s.split(None, 1)`: split on the first run of whitespace, at most two parts. -/
def splitWs1 (s : List Char) : List (List Char) :=
  let s1 := s.dropWhile pws
  if s1.isEmpty then []
  else
    let tok := s1.takeWhile (fun c => !pws c)
    let rest := (s1.drop tok.length).dropWhile pws
    if rest.isEmpty then [tok] else [tok, rest]

/-- Exactly 4 characters, each an ASCII digit or `?` (the year shape test, line 159). -/
def yearShaped (a : List Char) : Bool :=
  a.length = 4 && a.all (fun c => c.isDigit || c = '?')

/-- Published field handling (lines 148-165); input is the raw captured group, if any. -/
def parsePublished (raw : Option (List Char)) : List Char × List Char :=
  match raw with
  | none => ("Unknown".toList, "Unknown".toList)
  | some g =>
    let pubText := pstrip g
    match splitWs1 pubText with
    | [] => ("Unknown".toList, "Unknown".toList)
    | [a] => if yearShaped a then (a, "Unknown".toList) else ("Unknown".toList, pubText)
    | a :: b :: _ => if yearShaped a then (a, b) else ("Unknown".toList, pubText)

/-- The parsed metadata record returned by `parse_version_nfo`. -/
structure Record where
  name : List Char
  primary_genre : List Char
  secondary_genre : List Char
  language : List Char
  published_year : List Char
  publisher : List Char
  players : List Char
  control : List Char
  pal_ntsc : List Char
  unique_id : Option (List Char)
  developer : Option (List Char)
  coding : Option (List Char)
  graphics : Option (List Char)
  music : Option (List Char)
  comment : Option (List Char)
deriving DecidableEq

/-- Single-line optional field with a default (e.g. Language, Players): searched in `t`. -/
def fieldWithDefault (lbl : List Char) (t : List Char) (d : List Char) : List Char :=
  match searchLabelIn lbl t with
  | some v => pstrip v
  | none => d

/-- Single-line optional field without a default (e.g. Unique-ID): searched in `t`. -/
def fieldOpt (lbl : List Char) (t : List Char) : Option (List Char) :=
  (searchLabelIn lbl t).map pstrip

/--
`GamebaseOrganizer.parse_version_nfo`, from the decoded text content onward
(lines 114-237): isolate the GAME INFO section, require a line-anchored `Name:`
in it and a `Genre:` match in the whole content, then extract the remaining
fields (Language, Published, Players, Control, Pal/NTSC from the whole content;
Unique-ID, Developer, Coding, Graphics, Music, Comment from the section).
-/
def parse_version_nfo (content : List Char) : Option Record :=
  let gi := gameInfoSection content
  match searchNameIn gi with
  | none => none
  | some rawName =>
    match searchGenreIn content with
    | none => none
    | some rawGenre =>
      let genreText := pstrip (collapseWs rawGenre)
      let pg := splitGenre genreText
      let pub := parsePublished (searchLabelIn ("Published:".toList) content)
      some
        { name := pstrip rawName
          primary_genre := pg.1
          secondary_genre := pg.2
          language := fieldWithDefault ("Language:".toList) content ("(No Text)".toList)
          published_year := pub.1
          publisher := pub.2
          players := fieldWithDefault ("Players:".toList) content ("Unknown".toList)
          control := fieldWithDefault ("Control:".toList) content ("Unknown".toList)
          pal_ntsc := fieldWithDefault ("Pal/NTSC:".toList) content ("Unknown".toList)
          unique_id := fieldOpt ("Unique-ID:".toList) gi
          developer := fieldOpt ("Developer:".toList) gi
          coding := fieldOpt ("Coding:".toList) gi
          graphics := fieldOpt ("Graphics:".toList) gi
          music := fieldOpt ("Music:".toList) gi
          comment := fieldOpt ("Comment:".toList) gi }

/-!  Name sanitizer (sanitize_folder_name, lines 345-368). -/

/-- Step 1 of the sanitizer: both slash variants become a dash. -/
def slashDash (c : Char) : Char := if c = '\\' || c = '/' then '-' else c

/-- A square bracket. -/
def isBracket (c : Char) : Bool := c = '[' || c = ']'

/-- One of the seven forbidden Windows characters removed by the sanitizer. -/
def isInvalidWin (c : Char) : Bool :=
  c = '<' || c = '>' || c = ':' || c = '\"' || c = '|' || c = '?' || c = '*'

/-- `GamebaseOrganizer.sanitize_folder_name`. -/
def sanitize_folder_name (s : List Char) : List Char :=
  stripDotSpace (((s.map slashDash).filter (fun c => !isBracket c)).filter (fun c => !isInvalidWin c))

/-!  Destination-path building (build_destination_path, lines 290-343). -/

/-- Python `x or d` for a string value: the default replaces `None` and `""`. -/
def orDefaultS (v : List Char) (d : List Char) : List Char := if v.isEmpty then d else v

/-- Python `x or d` for an optional string value. -/
def orDefaultO (v : Option (List Char)) (d : List Char) : List Char :=
  match v with
  | some s => if s.isEmpty then d else s
  | none => d

/-- `.replace('?', 'x')` applied to the published year (line 317). -/
def qToX (c : Char) : Char := if c = '?' then 'x' else c

/-- The substitution dict built by `build_destination_path` (lines 312-328), in source order. -/
def buildSubs (m : Record) (zipStem : List Char) : List (List Char × List Char) :=
  [ ("name".toList, sanitize_folder_name (orDefaultS m.name zipStem))
  , ("primary_genre".toList, sanitize_folder_name (orDefaultS m.primary_genre ("Unknown".toList)))
  , ("secondary_genre".toList, sanitize_folder_name (orDefaultS m.secondary_genre ("Other".toList)))
  , ("language".toList, sanitize_folder_name (orDefaultS m.language ("Unknown".toList)))
  , ("published_year".toList, (orDefaultS m.published_year ("Unknown".toList)).map qToX)
  , ("publisher".toList, sanitize_folder_name (orDefaultS m.publisher ("Unknown".toList)))
  , ("players".toList, sanitize_folder_name (orDefaultS m.players ("Unknown".toList)))
  , ("control".toList, sanitize_folder_name (orDefaultS m.control ("Unknown".toList)))
  , ("pal_ntsc".toList, sanitize_folder_name (orDefaultS m.pal_ntsc ("Unknown".toList)))
  , ("developer".toList, sanitize_folder_name (orDefaultO m.developer ("Unknown".toList)))
  , ("coding".toList, sanitize_folder_name (orDefaultO m.coding ("Unknown".toList)))
  , ("graphics".toList, sanitize_folder_name (orDefaultO m.graphics ("Unknown".toList)))
  , ("music".toList, sanitize_folder_name (orDefaultO m.music ("Unknown".toList)))
  , ("comment".toList, sanitize_folder_name (orDefaultO m.comment ("Unknown".toList)))
  , ("unique_id".toList, orDefaultO m.unique_id ("Unknown".toList)) ]

/-- Dict lookup in the substitution mapping. -/
def lookupSub (subs : List (List Char × List Char)) (k : List Char) : Option (List Char) :=
  (subs.find? (fun p => p.1 = k)).map (·.2)

/-- A character that terminates the arg-name part of a replacement field in
CPython's field-name grammar: `.` and `[` begin attribute or element access,
`!` a conversion, `:` the format spec, and the closing brace ends the field
(`]` alone is an ordinary name character). -/
def fieldNameEnd (c : Char) : Bool :=
  c = '.' || c = '[' || c = '!' || c = ':' || c = rbrace

/-- Failure of `str.format`, or its modelling boundary: an unknown keyword name
raises `KeyError`; an empty or all-digits arg-name is a positional index and
raises `IndexError` (the call passes keyword arguments only); `.featErr` marks
a field whose name is followed by `.`, `[`, `!` or `:` (attribute access,
element indexing, conversion or format spec), which is outside the modelled
fragment and about which no theorem asserts anything; an unmatched brace is a
non-KeyError format `ValueError`. -/
inductive FmtErr where
  | keyErr (k : List Char)
  | indexErr
  | featErr
  | malformed
deriving DecidableEq

/--
Python `template.format(**subs)` for the fragment of the format grammar the
claims concern: literal text, `{{` and `}}` escapes, and replacement fields.
A field's arg-name runs to the first of `.`, `[`, `!`, `:` or `}` (CPython's
field-name grammar).  For a simple `{arg_name}` field, an empty or all-digits
name (ASCII digits; the declared ASCII scope) is a positional index giving
`.indexErr`, an unknown keyword name gives `.keyErr`, and a known one
substitutes its value.  A name followed by `.`, `[`, `!` or `:` gives the
boundary marker `.featErr` (see `FmtErr`).  Written with a structural fuel
argument (each step consumes at least one character, so `l.length` bounds the
recursion depth).
-/
def fmtT (subs : List (List Char × List Char)) : Nat → List Char → Except FmtErr (List Char)
  | _, [] => .ok []
  | 0, _ :: _ => .error .malformed
  | fuel + 1, c :: rest =>
    if c = lbrace then
      match rest with
      | [] => .error .malformed
      | d :: rest2 =>
        if d = lbrace then (fmtT subs fuel rest2).map (lbrace :: ·)
        else
          let nm := (d :: rest2).takeWhile (fun c2 => !fieldNameEnd c2)
          match (d :: rest2).drop nm.length with
          | [] => .error .malformed
          | t :: rest4 =>
            if t = rbrace then
              if nm.all Char.isDigit then .error .indexErr
              else
                match lookupSub subs nm with
                | some v => (fmtT subs fuel rest4).map (v ++ ·)
                | none => .error (.keyErr nm)
            else .error .featErr
    else if c = rbrace then
      match rest with
      | [] => .error .malformed
      | d :: rest2 =>
        if d = rbrace then (fmtT subs fuel rest2).map (rbrace :: ·) else .error .malformed
    else (fmtT subs fuel rest).map (c :: ·)

def fmtTemplate (subs : List (List Char × List Char)) (l : List Char) : Except FmtErr (List Char) :=
  fmtT subs l.length l

/-- The 15 valid placeholder names, in the order produced by `sorted(subs.keys())`. -/
def validFieldsSorted : List (List Char) :=
  [ "coding".toList, "comment".toList, "control".toList, "developer".toList
  , "graphics".toList, "language".toList, "music".toList, "name".toList
  , "pal_ntsc".toList, "players".toList, "primary_genre".toList, "published_year".toList
  , "publisher".toList, "secondary_genre".toList, "unique_id".toList ]

/-- `', '.join(sorted(subs.keys()))` (line 335). -/
def validFieldsJoined : List Char := List.intercalate (", ".toList) validFieldsSorted

/-- A single-quote character. -/
def squote : Char := Char.ofNat 39

/-- A double-quote character. -/
def dquote : Char := Char.ofNat 34

/-- Hexadecimal digit character (lower case), as CPython prints `\xHH` escapes. -/
def hexDig (n : Nat) : Char := if n < 10 then Char.ofNat (48 + n) else Char.ofNat (87 + n)

/-- One character of the `repr` of an ASCII string quoted with `q`: backslash
and the quote are escaped, `\n`, `\r`, `\t` get their two-character escapes,
other control characters and DEL an `\xHH` escape, the rest pass through. -/
def reprEsc (q : Char) (c : Char) : List Char :=
  if c = '\\' then ['\\', '\\']
  else if c = q then ['\\', q]
  else if c = '\n' then ['\\', 'n']
  else if c = '\r' then ['\\', 'r']
  else if c = '\t' then ['\\', 't']
  else if c.toNat < 32 || c.toNat = 127 then
    ['\\', 'x', hexDig (c.toNat / 16), hexDig (c.toNat % 16)]
  else [c]

def escAll (q : Char) : List Char → List Char
  | [] => []
  | c :: t => reprEsc q c ++ escAll q t

/-- `repr` of an ASCII string: single-quoted, unless it contains a single
quote and no double quote, in which case double-quoted. -/
def pyRepr (s : List Char) : List Char :=
  let q := if s.any (fun c => c = squote) && !s.any (fun c => c = dquote)
    then dquote else squote
  q :: escAll q s ++ [q]

/-- Python `.strip` of single quotes from both ends of a string. -/
def stripSquotes (s : List Char) : List Char :=
  trimRight (fun c => c = squote) (trimLeft (fun c => c = squote) s)

/-- `str(e).strip("'")` for `e` the caught `KeyError` (line 334): the repr of
the offending key with all surrounding single quotes stripped. -/
def invalidFieldOf (k : List Char) : List Char := stripSquotes (pyRepr k)

/-- The message of the `ValueError` raised for an invalid template field
(lines 333-340). -/
def invalidFieldMsg (k : List Char) : List Char :=
  "Invalid template field: ".toList ++ [lbrace] ++ invalidFieldOf k ++ [rbrace]
    ++ "\nValid fields are: ".toList ++ validFieldsJoined
    ++ "\nCheck your template for typos!".toList

/-- A character the key repr leaves unchanged and `strip` cannot eat:
printable ASCII, not a single quote, not a backslash.  For keys of such
characters, `str(e).strip` returns the key itself. -/
def reprPlain (c : Char) : Bool :=
  32 ≤ c.toNat && c.toNat ≤ 126 && c ≠ squote && c ≠ '\\'

/-- Failure of `build_destination_path`: the re-raised template-field
`ValueError` (for a `KeyError` from `format`); an uncaught `IndexError` from a
positional field (the `except KeyError` at line 333 does not catch it); any
other uncaught format `ValueError`; or the `.featErr` modelling boundary,
carried through unchanged. -/
inductive BuildErr where
  | templateFieldError (msg : List Char)
  | indexError
  | formatError
  | unmodelledField
deriving DecidableEq

/-- `GamebaseOrganizer.build_destination_path` (lines 290-343), producing the
expanded relative path string (the final `root / path_str` join is modelled by
`splitSeg`/`resolveFinalDest` below). -/
def build_destination_path (template : List Char) (m : Record) (zipStem : List Char) :
    Except BuildErr (List Char) :=
  match fmtTemplate (buildSubs m zipStem) template with
  | .ok s => .ok s
  | .error (.keyErr k) => .error (.templateFieldError (invalidFieldMsg k))
  | .error .indexErr => .error .indexError
  | .error .featErr => .error .unmodelledField
  | .error .malformed => .error .formatError

/-!  Collision probing (_process_zip_file, extract branch, lines 492-548). -/

/-- Split a relative path string on `/` into its nonempty segments (the effect of
joining it onto a `Path` with `/`). -/
def splitSegGo : List Char → List Char → List (List Char)
  | [], acc => if acc.isEmpty then [] else [acc.reverse]
  | c :: rest, acc =>
    if c = '/' then
      (if acc.isEmpty then splitSegGo rest [] else acc.reverse :: splitSegGo rest [])
    else splitSegGo rest (c :: acc)

def splitSeg (s : List Char) : List (List Char) := splitSegGo s []

/-- `folder_template.strip().replace(' ', '').endswith('{name}')` (lines 531-532). -/
def endsWithNameFlag (template : List Char) : Bool :=
  ("{name}".toList).isSuffixOf ((pstrip template).filter (fun c => c ≠ ' '))

/-- `f"{game_name} [v{version}]"` (lines 543, 546). -/
def versionedName (g : List Char) (v : Nat) : List Char :=
  g ++ " [v".toList ++ (Nat.repr v).toList ++ "]".toList

/--
The `while final_dest.exists()` collision loop (lines 539-548): while the
current candidate is in the set of existing paths, replace it by
`base ++ [game_name [vN]]` with N counting up from 2.  The Python loop is
unbounded; `fuel` bounds the modelled iteration count, and the probe lemmas
show that any fuel exceeding the number of colliding candidates yields the
loop's result (which the fuel-0 fallback never reaches).
-/
def probeAux (existing : List (List (List Char))) (base : List (List Char)) (g : List Char) :
    Nat → Nat → List (List Char) → List (List Char)
  | fuel, v, cur =>
    if cur ∈ existing then
      match fuel with
      | 0 => cur
      | f + 1 => probeAux existing base g f (v + 1) (base ++ [versionedName g v])
    else cur

/--
Destination resolution of `_process_zip_file` in the extract branch (lines
492-548): sanitized game name, template expansion, the ends-with-`{name}`
test, and the collision loop, over an explicit list of existing paths (each a
list of segments; `root` is the destination root's segments).
-/
def resolveFinalDest (existing : List (List (List Char))) (root : List (List Char))
    (template : List Char) (m : Record) (zipStem : List Char) (fuel : Nat) :
    Except BuildErr (List (List Char)) :=
  match build_destination_path template m zipStem with
  | .error e => .error e
  | .ok pathStr =>
    let gname := sanitize_folder_name (orDefaultS m.name zipStem)
    let destPath := root ++ splitSeg pathStr
    let ewn := endsWithNameFlag template
    let base := if ewn then destPath.dropLast else destPath
    let first := if ewn then destPath else destPath ++ [gname]
    .ok (probeAux existing base gname fuel 2 first)

/-!  Disk-file renaming (rename_disk_files, lines 257-288). -/

/-- A filesystem entry found by `folder.rglob('*')`: a path (as segments relative
to the searched folder) and whether it is a regular file. -/
structure FsEntry where
  segs : List (List Char)
  isFile : Bool
deriving DecidableEq

/-- Last path segment (the file name), empty for an empty path. -/
def lastSeg (segs : List (List Char)) : List Char :=
  match segs.getLast? with
  | some s => s
  | none => []

/-- `PurePath.suffix`: from the last dot of the name, provided the dot is neither
leading nor trailing. -/
def pySuffix (nm : List Char) : List Char :=
  match nm.reverse.findIdx? (· = '.') with
  | some j =>
    let i := nm.length - 1 - j
    if 0 < i && i < nm.length - 1 then nm.drop i else []
  | none => []

/-- The fixed recognized disk/tape/program-image extension set (line 269). -/
def diskExtensions : List (List Char) :=
  [ ".d64".toList, ".d71".toList, ".d81".toList, ".g64".toList, ".x64".toList
  , ".t64".toList, ".tap".toList, ".prg".toList, ".p00".toList, ".lnx".toList ]

/-- `file.is_file() and file.suffix.lower() in disk_extensions` (line 275). -/
def isDiskFile (e : FsEntry) : Bool :=
  e.isFile && diskExtensions.contains ((pySuffix (lastSeg e.segs)).map Char.toLower)

/-- Python string `<` on one path segment (code-point lexicographic). -/
def segLt : List Char → List Char → Bool
  | [], [] => false
  | [], _ :: _ => true
  | _ :: _, [] => false
  | a :: as, b :: bs =>
    if a.toNat < b.toNat then true else if b.toNat < a.toNat then false else segLt as bs

/-- `PurePath` ordering: lexicographic comparison of the parts tuples. -/
def segsLt : List (List Char) → List (List Char) → Bool
  | [], [] => false
  | [], _ :: _ => true
  | _ :: _, [] => false
  | a :: as, b :: bs =>
    if segLt a b then true else if segLt b a then false else segsLt as bs

/-- Stable insertion into a sorted list: `x` goes before the first element not
strictly below it, matching the stability of Python's `sort`. -/
def insertBy (lt : α → α → Bool) (x : α) : List α → List α
  | [] => [x]
  | y :: ys => if lt y x then y :: insertBy lt x ys else x :: y :: ys

/-- Stable insertion sort (Python `list.sort` is a stable sort by `<`). -/
def sortBy (lt : α → α → Bool) : List α → List α
  | [] => []
  | x :: xs => insertBy lt x (sortBy lt xs)

/-- Target name `f"{game_name}_d{index}{ext}"` (line 284), with the lowercased
suffix and 1-based `index`. -/
def diskTarget (g : List Char) (i : Nat) (e : FsEntry) : List (List Char) :=
  e.segs.dropLast ++
    [g ++ "_d".toList ++ (Nat.repr (i + 1)).toList ++ ((pySuffix (lastSeg e.segs)).map Char.toLower)]

/--
`GamebaseOrganizer.rename_disk_files` (lines 257-288), as the list of rename
operations it performs, in order: recursively found regular files with a
recognized extension, sorted by full path, the i-th (1-based) renamed inside
its own parent folder to `<name>_d<i><ext>`; a file already at its target name
is skipped (`if new_path != file`).
-/
def rename_disk_files (entries : List FsEntry) (g : List Char) :
    List (List (List Char) × List (List Char)) :=
  let files := entries.filter isDiskFile
  let sorted := sortBy (fun a b => segsLt a.segs b.segs) files
  sorted.enum.filterMap (fun p =>
    let tgt := diskTarget g p.1 p.2
    if tgt = p.2.segs then none else some (p.2.segs, tgt))

/-!
Encoding-fallback ladder (parse_version_nfo, lines 88-112).  File bytes are
`List (Fin 256)` and decoded text is a list of Unicode code points.  The three
strict decoders model `utf-8-sig`, `cp1252` and `latin-1` with
`errors='strict'`; the replacement-mode second pass is modelled by its first
rung `utf-8-sig` with `errors='replace'`, which always succeeds, so the later
rungs of the second pass are never consulted.
-/

/-- A UTF-8 continuation byte. -/
def isCont (b : Fin 256) : Bool := 128 ≤ b.val && b.val ≤ 191

/-- Valid first continuation byte of a 3-byte sequence (excludes overlong forms
and surrogates, as CPython's strict UTF-8 decoder does). -/
def cont3ok (b c1 : Fin 256) : Bool :=
  if b.val = 224 then 160 ≤ c1.val && c1.val ≤ 191
  else if b.val = 237 then 128 ≤ c1.val && c1.val ≤ 159
  else isCont c1

/-- Valid first continuation byte of a 4-byte sequence (excludes overlong forms
and code points above U+10FFFF). -/
def cont4ok (b c1 : Fin 256) : Bool :=
  if b.val = 240 then 144 ≤ c1.val && c1.val ≤ 191
  else if b.val = 244 then 128 ≤ c1.val && c1.val ≤ 143
  else isCont c1

/-- Decode the head UTF-8 sequence: given the lead byte and the remaining
bytes, the code point and the bytes after the sequence, or `none` if the
sequence is ill-formed at this position. -/
def utf8Head (b : Fin 256) (rest : List (Fin 256)) : Option (Nat × List (Fin 256)) :=
  if b.val < 128 then some (b.val, rest)
  else if b.val < 194 then none
  else if b.val ≤ 223 then
    match rest with
    | c :: rest2 =>
      if isCont c then some ((b.val - 192) * 64 + (c.val - 128), rest2) else none
    | [] => none
  else if b.val ≤ 239 then
    match rest with
    | c1 :: c2 :: rest3 =>
      if cont3ok b c1 && isCont c2 then
        some ((b.val - 224) * 4096 + (c1.val - 128) * 64 + (c2.val - 128), rest3)
      else none
    | _ => none
  else if b.val ≤ 244 then
    match rest with
    | c1 :: c2 :: c3 :: rest4 =>
      if cont4ok b c1 && isCont c2 && isCont c3 then
        some ((b.val - 240) * 262144 + (c1.val - 128) * 4096 + (c2.val - 128) * 64
          + (c3.val - 128), rest4)
      else none
    | _ => none
  else none

/-- Strict UTF-8 decoding to code points; `none` on the first invalid sequence.
Written with a structural fuel argument (each step consumes at least the lead
byte, so `l.length` bounds the number of steps; `utf8Go_fuel` below shows any
sufficient fuel computes the same result). -/
def utf8Go : Nat → List (Fin 256) → Option (List Nat)
  | _, [] => some []
  | 0, _ :: _ => none
  | fuel + 1, b :: rest =>
    match utf8Head b rest with
    | some (cp, rest2) => (utf8Go fuel rest2).map (cp :: ·)
    | none => none

def utf8DecodeStrict (l : List (Fin 256)) : Option (List Nat) := utf8Go l.length l

/-- The replacement character U+FFFD. -/
def fffd : Nat := 65533

/-- Replacement-mode decoding of the head sequence: the code point (or `none`
for one U+FFFD) and the bytes left after the maximal subpart consumed, as
CPython's `errors='replace'` handler does. -/
def utf8RepHead (b : Fin 256) (rest : List (Fin 256)) : Option Nat × List (Fin 256) :=
  if b.val < 128 then (some b.val, rest)
  else if b.val < 194 then (none, rest)
  else if b.val ≤ 223 then
    match rest with
    | c :: rest2 =>
      if isCont c then (some ((b.val - 192) * 64 + (c.val - 128)), rest2)
      else (none, c :: rest2)
    | [] => (none, [])
  else if b.val ≤ 239 then
    match rest with
    | c1 :: c2 :: rest3 =>
      if cont3ok b c1 then
        (if isCont c2 then
          (some ((b.val - 224) * 4096 + (c1.val - 128) * 64 + (c2.val - 128)), rest3)
         else (none, c2 :: rest3))
      else (none, c1 :: c2 :: rest3)
    | [c1] => if cont3ok b c1 then (none, []) else (none, [c1])
    | [] => (none, [])
  else if b.val ≤ 244 then
    match rest with
    | c1 :: c2 :: c3 :: rest4 =>
      if cont4ok b c1 then
        (if isCont c2 then
          (if isCont c3 then
            (some ((b.val - 240) * 262144 + (c1.val - 128) * 4096 + (c2.val - 128) * 64
              + (c3.val - 128)), rest4)
           else (none, c3 :: rest4))
         else (none, c2 :: c3 :: rest4))
      else (none, c1 :: c2 :: c3 :: rest4)
    | [c1, c2] =>
      if cont4ok b c1 then (if isCont c2 then (none, []) else (none, [c2]))
      else (none, [c1, c2])
    | [c1] => if cont4ok b c1 then (none, []) else (none, [c1])
    | [] => (none, [])
  else (none, rest)

/-- UTF-8 decoding with `errors='replace'`: one U+FFFD per maximal subpart of an
ill-formed sequence; always succeeds.  Fuel as in `utf8Go`. -/
def utf8RepGo : Nat → List (Fin 256) → List Nat
  | _, [] => []
  | 0, _ :: _ => []
  | fuel + 1, b :: rest =>
    match utf8RepHead b rest with
    | (some cp, rest2) => cp :: utf8RepGo fuel rest2
    | (none, rest2) => fffd :: utf8RepGo fuel rest2

def utf8Replace (l : List (Fin 256)) : List Nat := utf8RepGo l.length l

/-- The UTF-8 byte-order mark. -/
def bomBytes : List (Fin 256) := [239, 187, 191]

/-- Remove a leading BOM, as the `utf-8-sig` codec does before decoding. -/
def stripBom (l : List (Fin 256)) : List (Fin 256) :=
  if bomBytes.isPrefixOf l then l.drop 3 else l

/-- `utf-8-sig`: strip a leading BOM, then decode UTF-8. -/
def utf8SigDecodeStrict (l : List (Fin 256)) : Option (List Nat) :=
  utf8DecodeStrict (stripBom l)

def utf8SigReplace (l : List (Fin 256)) : List Nat :=
  utf8Replace (stripBom l)

/-- The cp1252 mapping of bytes 0x80-0x9F; `none` for the five unassigned bytes. -/
def cp1252Hi : Nat → Option Nat
  | 128 => some 8364
  | 130 => some 8218
  | 131 => some 402
  | 132 => some 8222
  | 133 => some 8230
  | 134 => some 8224
  | 135 => some 8225
  | 136 => some 710
  | 137 => some 8240
  | 138 => some 352
  | 139 => some 8249
  | 140 => some 338
  | 142 => some 381
  | 145 => some 8216
  | 146 => some 8217
  | 147 => some 8220
  | 148 => some 8221
  | 149 => some 8226
  | 150 => some 8211
  | 151 => some 8212
  | 152 => some 732
  | 153 => some 8482
  | 154 => some 353
  | 155 => some 8250
  | 156 => some 339
  | 158 => some 382
  | 159 => some 376
  | _ => none

def cp1252Byte (b : Fin 256) : Option Nat :=
  if b.val < 128 then some b.val
  else if 160 ≤ b.val then some b.val
  else cp1252Hi b.val

/-- Strict cp1252 decoding; fails on the five unassigned bytes. -/
def cp1252DecodeStrict : List (Fin 256) → Option (List Nat)
  | [] => some []
  | b :: rest =>
    match cp1252Byte b with
    | some v => (cp1252DecodeStrict rest).map (v :: ·)
    | none => none

/-- latin-1 decoding: total, byte value = code point. -/
def latin1Decode (l : List (Fin 256)) : List Nat := l.map (·.val)

/-- The first strict pass (lines 93-99): first of `utf-8-sig`, `cp1252`,
`latin-1` in strict mode that succeeds. -/
def decodeStrictLadder (l : List (Fin 256)) : Option (List Nat) :=
  match utf8SigDecodeStrict l with
  | some c => some c
  | none =>
    match cp1252DecodeStrict l with
    | some c => some c
    | none => some (latin1Decode l)

/-- Content after both passes (lines 93-109): the strict result, or, when that
is empty (Python falsy) or failed, the first replacement-mode rung. -/
def decodedContent (l : List (Fin 256)) : List Nat :=
  match decodeStrictLadder l with
  | some c => if c.isEmpty then utf8SigReplace l else c
  | none => utf8SigReplace l

/-- The decode step of `parse_version_nfo` (lines 88-112): `None` exactly when
the final content is falsy (line 111), otherwise the decoded content. -/
def decodePhase (l : List (Fin 256)) : Option (List Nat) :=
  if (decodedContent l).isEmpty then none else some (decodedContent l)

/-!  Definitions taken from the spec's words, for comparison with the code. -/

/-- Modelled from the spec: a "label match anchored to the start of a line" -
some line of `t` begins with the label.  Used only to state what claim C1
expects, against which the code's extraction is compared. -/
def specAnchoredGo (lbl : List Char) : List Char → Bool → Bool
  | [], _ => false
  | c :: t, atLS => (atLS && lbl.isPrefixOf (c :: t)) || specAnchoredGo lbl t (c = '\n')

def specLineAnchoredHit (lbl t : List Char) : Bool := specAnchoredGo lbl t true

/-- The forbidden characters of the sanitizer: the two slash variants, square
brackets, and the seven invalid Windows characters. -/
def forbiddenChar (c : Char) : Bool := c = '\\' || c = '/' || isBracket c || isInvalidWin c

/-- No character of `s` is forbidden by the sanitizer. -/
def noForbidden (s : List Char) : Bool := s.all (fun c => !forbiddenChar c)

/-- The body of an anchored `Name:` match attempt at a suffix `u`: after the
greedy `\s*`, the label must appear, and the value tail must match. -/
def nameHitBody (u : List Char) : Bool :=
  let m := (u.takeWhile pws).length
  ("Name:".toList).isPrefixOf (u.drop m) && (labelTailS (u.drop (m + 5))).isSome

/-- The character at position `q` of `t` is a newline. -/
def lineBreakAt (t : List Char) (q : Nat) : Bool :=
  match (t.drop q).head? with
  | some d => d = '\n'
  | none => false

/-- A line-start-anchored `Name:` match attempt succeeds at position `p` of `t`
(`atLS0` says whether position 0 counts as a line start). -/
def anchoredHitAt (t : List Char) (atLS0 : Bool) : Nat → Bool
  | 0 => atLS0 && nameHitBody t
  | q + 1 => lineBreakAt t q && nameHitBody (t.drop (q + 1))

/-- A concrete record whose `unique_id` holds a character the sanitizer forbids. -/
def sampleUidRecord : Record :=
  { name := "N".toList, primary_genre := "P".toList, secondary_genre := "S".toList
  , language := "L".toList, published_year := "1987".toList, publisher := "Pub".toList
  , players := "1".toList, control := "J".toList, pal_ntsc := "PAL".toList
  , unique_id := some ("a<b".toList), developer := none, coding := none
  , graphics := none, music := none, comment := none }

/-- A concrete record for collision-probe examples (the `Zorro` scenario of the spec). -/
def zorroRecord : Record :=
  { name := "Zorro".toList, primary_genre := "Action".toList
  , secondary_genre := "Platformer".toList, language := "English".toList
  , published_year := "1987".toList, publisher := "Pub".toList
  , players := "1".toList, control := "J".toList, pal_ntsc := "PAL".toList
  , unique_id := none, developer := none, coding := none
  , graphics := none, music := none, comment := none }

/-- A well-formed info text: the GAME INFO marker at index 0 and the GAME
HISTORY marker inside, with a Name and a Genre line between them. -/
def c1Base : List Char := "GAME INFO\nName: A\nGenre: P\nGAME HISTORY".toList

/-- Text appended after the GAME HISTORY marker. -/
def c1Ext : List Char := "\nLanguage: French".toList

/-- The record parsed from the base text. -/
def c1rT : Record := (parse_version_nfo c1Base).getD sampleUidRecord

/-- The record parsed from the extended text. -/
def c1rTB : Record := (parse_version_nfo (c1Base ++ c1Ext)).getD sampleUidRecord

/-!  Lemmas about trimming and the sanitizer. -/

lemma mem_trimLeft {p : Char → Bool} {l : List Char} {c : Char} (h : c ∈ trimLeft p l) :
    c ∈ l := (List.dropWhile_suffix p).subset h

lemma mem_trimRight {p : Char → Bool} {l : List Char} {c : Char} (h : c ∈ trimRight p l) :
    c ∈ l := by
  have h1 : c ∈ l.reverse.dropWhile p := by simpa [trimRight] using h
  have h2 := (List.dropWhile_suffix p).subset h1
  simpa using h2

lemma trimRight_isPre (p : Char → Bool) (l : List Char) : trimRight p l <+: l := by
  have h := List.dropWhile_suffix p (l := l.reverse)
  have h2 : (l.reverse.dropWhile p).reverse <+: l.reverse.reverse :=
    List.reverse_prefix.mpr h
  simpa [trimRight] using h2

lemma trimLeft_idem (p : Char → Bool) (l : List Char) :
    trimLeft p (trimLeft p l) = trimLeft p l := List.dropWhile_idempotent p l

lemma trimRight_idem (p : Char → Bool) (l : List Char) :
    trimRight p (trimRight p l) = trimRight p l := by
  simp [trimRight, List.dropWhile_idempotent]

lemma trimLeft_eq_self_of_prefix {p : Char → Bool} {v w : List Char}
    (hw : trimLeft p w = w) (hpre : v <+: w) : trimLeft p v = v := by
  cases v with
  | nil => simp [trimLeft]
  | cons c v' =>
    cases w with
    | nil => exact absurd (List.eq_nil_of_prefix_nil hpre) (by simp)
    | cons d w' =>
      have hcd : c = d := (List.cons_prefix_cons.mp hpre).1
      have : ¬ p d := by
        intro hpd
        have hdw := hw
        simp [trimLeft, List.dropWhile, hpd] at hdw
        have hlen : (List.dropWhile p w').length = w'.length + 1 := by
          rw [hdw]; simp
        have := (List.dropWhile_suffix p (l := w')).length_le
        omega
      simp [trimLeft, List.dropWhile, hcd, this]

lemma stripDotSpace_idem (l : List Char) :
    stripDotSpace (stripDotSpace l) = stripDotSpace l := by
  unfold stripDotSpace
  have h1 : trimLeft dotSpace (trimLeft dotSpace l) = trimLeft dotSpace l :=
    trimLeft_idem _ _
  have h2 : trimLeft dotSpace (trimRight dotSpace (trimLeft dotSpace l))
      = trimRight dotSpace (trimLeft dotSpace l) :=
    trimLeft_eq_self_of_prefix h1 (trimRight_isPre _ _)
  rw [h2, trimRight_idem]

lemma forbiddenChar_eq_false_iff {c : Char} :
    forbiddenChar c = false
      ↔ (c ≠ '\\' ∧ c ≠ '/' ∧ isBracket c = false ∧ isInvalidWin c = false) := by
  simp [forbiddenChar, and_assoc]

lemma sanitize_not_forbidden {s : List Char} {c : Char}
    (h : c ∈ sanitize_folder_name s) : forbiddenChar c = false := by
  unfold sanitize_folder_name stripDotSpace at h
  have h1 := mem_trimLeft (mem_trimRight h)
  have h2 : c ∈ ((s.map slashDash).filter (fun c => !isBracket c)) ∧ isInvalidWin c = false := by
    have := List.of_mem_filter h1
    exact ⟨List.mem_of_mem_filter h1, by simpa using this⟩
  have h3 : c ∈ s.map slashDash ∧ isBracket c = false := by
    have := List.of_mem_filter h2.1
    exact ⟨List.mem_of_mem_filter h2.1, by simpa using this⟩
  have h4 : c ≠ '\\' ∧ c ≠ '/' := by
    obtain ⟨a, _, ha⟩ := List.mem_map.mp h3.1
    by_cases hsl : a = '\\' || a = '/'
    · constructor <;> · rw [← ha]; simp [slashDash, hsl]
    · have hca : c = a := by rw [← ha]; simp [slashDash, hsl]
      subst hca
      simp only [Bool.or_eq_true, decide_eq_true_eq, not_or] at hsl
      exact hsl
  exact forbiddenChar_eq_false_iff.mpr ⟨h4.1, h4.2, h3.2, h2.2⟩

lemma noForbidden_sanitize (s : List Char) : noForbidden (sanitize_folder_name s) = true := by
  simp only [noForbidden, List.all_eq_true]
  intro c hc
  simp [sanitize_not_forbidden hc]

lemma sanitize_idem (x : List Char) :
    sanitize_folder_name (sanitize_folder_name x) = sanitize_folder_name x := by
  have hnf : ∀ c ∈ sanitize_folder_name x, forbiddenChar c = false := fun c hc =>
    sanitize_not_forbidden hc
  conv_lhs => rw [sanitize_folder_name]
  have hmap : (sanitize_folder_name x).map slashDash = sanitize_folder_name x := by
    refine (List.map_congr_left ?_).trans (List.map_id _)
    intro a ha
    obtain ⟨h1, h2, _, _⟩ := forbiddenChar_eq_false_iff.mp (hnf a ha)
    simp [slashDash, h1, h2]
  rw [hmap]
  have hbr : (sanitize_folder_name x).filter (fun c => !isBracket c) = sanitize_folder_name x := by
    refine List.filter_eq_self.mpr ?_
    intro a ha
    obtain ⟨_, _, h3, _⟩ := forbiddenChar_eq_false_iff.mp (hnf a ha)
    simp [h3]
  rw [hbr]
  have hin : (sanitize_folder_name x).filter (fun c => !isInvalidWin c) = sanitize_folder_name x := by
    refine List.filter_eq_self.mpr ?_
    intro a ha
    obtain ⟨_, _, _, h4⟩ := forbiddenChar_eq_false_iff.mp (hnf a ha)
    simp [h4]
  rw [hin]
  have : sanitize_folder_name x
      = stripDotSpace (((x.map slashDash).filter (fun c => !isBracket c)).filter
          (fun c => !isInvalidWin c)) := rfl
  rw [this, stripDotSpace_idem]

/--
Claim C7: the name sanitizer is a pure, idempotent function — sanitizing an
already-sanitized string returns it unchanged — and it removes exactly the
fixed character sets (slashes to dashes, brackets and the seven forbidden
Windows characters removed, leading/trailing spaces and dots trimmed), so that
sanitizing `"Pirates! [Gold]"` removes only the brackets while `!` passes
through, and the output never contains a forbidden character.
-/
theorem C7_sanitizer_idempotent :
    (∀ x : List Char, sanitize_folder_name (sanitize_folder_name x) = sanitize_folder_name x)
    ∧ sanitize_folder_name ("Pirates! [Gold]".toList) = "Pirates! Gold".toList
    ∧ (∀ x : List Char, noForbidden (sanitize_folder_name x) = true) :=
  ⟨sanitize_idem, by decide, noForbidden_sanitize⟩

/-!  The Published splitter (claim C3). -/

lemma pstrip_dropWhile (v : List Char) : (pstrip v).dropWhile pws = pstrip v := by
  have h1 : trimLeft pws (trimLeft pws v) = trimLeft pws v := trimLeft_idem _ _
  have h2 := trimLeft_eq_self_of_prefix h1 (trimRight_isPre pws (trimLeft pws v))
  simpa [pstrip, trimLeft] using h2

/--
Claim C3: every raw Published value is split on the first run of whitespace
into at most two parts; the first token becomes the year iff it is exactly 4
characters each a digit or `?`, with the second token (when present) becoming
the publisher; otherwise the entire (stripped) raw value becomes the publisher
and the year keeps its default `Unknown`.  The general clause restates the
split with primitive token operations; the three concrete clauses are the
spec's examples.
-/
theorem C3_published_split :
    (∀ v : List Char,
      parsePublished (some v) =
        (if yearShaped ((pstrip v).takeWhile (fun c => !pws c)) then
          (((pstrip v).takeWhile (fun c => !pws c)),
            (if (((pstrip v).drop ((pstrip v).takeWhile (fun c => !pws c)).length).dropWhile pws).isEmpty
             then "Unknown".toList
             else ((pstrip v).drop ((pstrip v).takeWhile (fun c => !pws c)).length).dropWhile pws))
         else if (pstrip v).isEmpty then ("Unknown".toList, "Unknown".toList)
         else ("Unknown".toList, pstrip v)))
    ∧ parsePublished (some ("1987 Activision".toList)) = ("1987".toList, "Activision".toList)
    ∧ parsePublished (some ("198? Ocean Software".toList)) = ("198?".toList, "Ocean Software".toList)
    ∧ parsePublished (some ("Unknown Publisher Co".toList))
        = ("Unknown".toList, "Unknown Publisher Co".toList) := by
  refine ⟨?_, by decide, by decide, by decide⟩
  intro v
  have hnl := pstrip_dropWhile v
  simp only [parsePublished, splitWs1, hnl]
  by_cases hse : (pstrip v).isEmpty
  · have hnil : pstrip v = [] := by simpa using hse
    simp [hnil, yearShaped]
  · simp only [hse, if_false]
    by_cases hre : (((pstrip v).drop ((pstrip v).takeWhile (fun c => !pws c)).length).dropWhile pws).isEmpty
    · by_cases hy : yearShaped ((pstrip v).takeWhile (fun c => !pws c)) <;> simp [hre, hy, hse]
    · by_cases hy : yearShaped ((pstrip v).takeWhile (fun c => !pws c)) <;> simp [hre, hy, hse]

/-!  Occurrence lemmas and the genre splitter (claim C9). -/

lemma firstOccIdx_eq_none_iff {pat t : List Char} :
    firstOccIdx pat t = none ↔ ∀ j, pat.isPrefixOf (t.drop j) = false := by
  induction t with
  | nil =>
    simp only [firstOccIdx, List.drop_nil]
    by_cases hp : pat.isEmpty
    · have : pat = [] := by simpa using hp
      subst this
      simp [List.isPrefixOf]
    · have : pat ≠ [] := by simpa using hp
      obtain ⟨c, cs, rfl⟩ : ∃ c cs, pat = c :: cs := by
        cases pat with
        | nil => simp at this
        | cons c cs => exact ⟨c, cs, rfl⟩
      simp [List.isPrefixOf]
  | cons c t ih =>
    simp only [firstOccIdx]
    by_cases hp : pat.isPrefixOf (c :: t)
    · simp only [hp, if_true]
      constructor
      · intro h; exact absurd h (by simp)
      · intro h
        have := h 0
        simp only [List.drop_zero] at this
        rw [hp] at this
        exact absurd this (by simp)
    · have hp' : pat.isPrefixOf (c :: t) = false := Bool.eq_false_iff.mpr hp
      simp only [hp', Bool.false_eq_true, if_false]
      have hmap : (Option.map (fun x => x + 1) (firstOccIdx pat t) = none)
          ↔ firstOccIdx pat t = none := by
        cases firstOccIdx pat t <;> simp
      rw [hmap, ih]
      constructor
      · intro h j
        cases j with
        | zero =>
          simp only [List.drop_zero]
          exact Bool.eq_false_iff.mpr hp
        | succ j' => simpa using h j'
      · intro h j
        simpa using h (j + 1)

lemma occursIn_eq_false_iff {pat t : List Char} :
    occursIn pat t = false ↔ ∀ j, pat.isPrefixOf (t.drop j) = false := by
  rw [← firstOccIdx_eq_none_iff]
  unfold occursIn
  cases firstOccIdx pat t <;> simp

lemma isPrefixOf_of_append_bound {pat x y : List Char} {j : Nat}
    (h : pat.isPrefixOf ((x ++ y).drop j) = true) (hb : j + pat.length ≤ x.length) :
    pat.isPrefixOf (x.drop j) = true := by
  have hj : j ≤ x.length := by omega
  have hdrop : (x ++ y).drop j = x.drop j ++ y := List.drop_append_of_le_length hj
  rw [hdrop] at h
  have hpre := List.isPrefixOf_iff_prefix.mp h
  have htake : pat = (x.drop j ++ y).take pat.length := List.prefix_iff_eq_take.mp hpre
  have hlen : pat.length ≤ (x.drop j).length := by
    rw [List.length_drop]
    omega
  rw [List.take_append_of_le_length hlen] at htake
  refine List.isPrefixOf_iff_prefix.mpr ?_
  rw [htake]
  exact List.take_prefix _ _

lemma firstOccIdx_eq_some_of {pat t : List Char} {i : Nat}
    (hocc : pat.isPrefixOf (t.drop i) = true)
    (hmin : ∀ j < i, pat.isPrefixOf (t.drop j) = false) :
    firstOccIdx pat t = some i := by
  induction t generalizing i with
  | nil =>
    have hpe : pat = [] := by
      cases pat with
      | nil => rfl
      | cons c cs => simp [List.isPrefixOf] at hocc
    subst hpe
    have hi0 : i = 0 := by
      by_contra h
      have h0 := hmin 0 (Nat.pos_of_ne_zero h)
      simp [List.isPrefixOf] at h0
    subst hi0
    simp [firstOccIdx]
  | cons c t ih =>
    cases i with
    | zero =>
      simp only [List.drop_zero] at hocc
      simp [firstOccIdx, hocc]
    | succ i' =>
      have hp0 : pat.isPrefixOf (c :: t) = false := by
        have := hmin 0 (Nat.succ_pos i')
        simpa using this
      simp only [firstOccIdx, hp0, Bool.false_eq_true, if_false]
      have hrec := ih (i := i') (by simpa using hocc) (fun j hj => by
        have := hmin (j + 1) (by omega)
        simpa using this)
      rw [hrec]
      rfl

/--
Claim C9: a collapsed genre text containing the literal separator `" - "` is
split on the first occurrence only into (primary, secondary), both trimmed,
with later occurrences kept verbatim inside the secondary genre; otherwise the
whole text becomes the primary genre and the secondary genre is `"Other"`.
The hypothesis of the first clause says the separator does not occur inside
`a` or across its right edge, i.e. the occurrence after `a` is the first one.
-/
theorem C9_genre_split :
    (∀ a b : List Char, occursIn (" - ".toList) (a ++ " -".toList) = false →
        splitGenre (a ++ " - ".toList ++ b) = (pstrip a, pstrip b))
    ∧ (∀ g : List Char, occursIn (" - ".toList) g = false →
        splitGenre g = (g, "Other".toList))
    ∧ splitGenre ("Action - Platformer".toList) = ("Action".toList, "Platformer".toList)
    ∧ splitGenre ("Puzzle".toList) = ("Puzzle".toList, "Other".toList)
    ∧ splitGenre ("Sport - Soccer - Indoor".toList)
        = ("Sport".toList, "Soccer - Indoor".toList) := by
  refine ⟨?_, ?_, by decide, by decide, by decide⟩
  · intro a b hno
    rw [List.append_assoc]
    have hocc : (" - ".toList).isPrefixOf ((a ++ (" - ".toList ++ b)).drop a.length) = true := by
      rw [List.drop_left a _]
      exact List.isPrefixOf_iff_prefix.mpr (List.prefix_append _ _)
    have hmin : ∀ j < a.length,
        (" - ".toList).isPrefixOf ((a ++ (" - ".toList ++ b)).drop j) = false := by
      intro j hj
      by_contra hcon
      have hcon' : (" - ".toList).isPrefixOf ((a ++ (" - ".toList ++ b)).drop j) = true := by
        simpa using hcon
      have hre : a ++ (" - ".toList ++ b) = (a ++ " -".toList) ++ (' ' :: b) := by
        simp [List.append_assoc]
      rw [hre] at hcon'
      have hb : j + (" - ".toList).length ≤ (a ++ " -".toList).length := by
        simp only [List.length_append]
        have : (" - ".toList).length = 3 := by decide
        have h2 : (" -".toList).length = 2 := by decide
        omega
      have hin := isPrefixOf_of_append_bound hcon' hb
      have h2 := occursIn_eq_false_iff.mp hno j
      rw [h2] at hin
      exact absurd hin (by simp)
    have hfo : firstOccIdx (" - ".toList) (a ++ (" - ".toList ++ b)) = some a.length :=
      firstOccIdx_eq_some_of hocc hmin
    unfold splitGenre
    rw [hfo]
    have htake : (a ++ (" - ".toList ++ b)).take a.length = a := List.take_left a _
    have hdrop : (a ++ (" - ".toList ++ b)).drop (a.length + 3) = b := by
      have hre : a ++ (" - ".toList ++ b) = (a ++ " - ".toList) ++ b := by
        rw [List.append_assoc]
      rw [hre]
      have hd := List.drop_left (a ++ " - ".toList) b
      have hlen : (a ++ " - ".toList).length = a.length + 3 := by
        simp only [List.length_append]
        have : (" - ".toList).length = 3 := by decide
        omega
      rw [hlen] at hd
      exact hd
    simp [htake, hdrop]
  · intro g h
    have hnone : firstOccIdx (" - ".toList) g = none := by
      unfold occursIn at h
      cases hfo : firstOccIdx (" - ".toList) g with
      | none => rfl
      | some i => rw [hfo] at h; simp at h
    unfold splitGenre
    rw [hnone]

/-- Witness for C9: the two universal clauses applied at the spec's examples. -/
theorem C9_witness :
    splitGenre ("Action".toList ++ " - ".toList ++ "Platformer - X".toList)
        = (pstrip ("Action".toList), pstrip ("Platformer - X".toList))
    ∧ splitGenre ("Puzzle".toList) = ("Puzzle".toList, "Other".toList) :=
  ⟨C9_genre_split.1 ("Action".toList) ("Platformer - X".toList) (by decide),
   C9_genre_split.2.1 ("Puzzle".toList) (by decide)⟩

/-!  Hard-failure lemmas for missing Name / Genre fields (claim C5). -/

lemma nameHitBody_nil : nameHitBody [] = false := by decide

lemma anchoredHitAt_succ (c : Char) (t : List Char) (a : Bool) (q : Nat) :
    anchoredHitAt (c :: t) a (q + 1) = anchoredHitAt t (decide (c = '\n')) q := by
  cases q with
  | zero => simp [anchoredHitAt, lineBreakAt]
  | succ q' => simp [anchoredHitAt, lineBreakAt]

lemma searchNameGo_eq_none_iff :
    ∀ (t : List Char) (a : Bool),
      searchNameGo t a = none ↔ ∀ p, anchoredHitAt t a p = false := by
  intro t
  induction t with
  | nil =>
    intro a
    constructor
    · intro _ p
      cases p with
      | zero => simp [anchoredHitAt, nameHitBody_nil]
      | succ q => simp [anchoredHitAt, lineBreakAt]
    · intro _
      simp [searchNameGo]
  | cons c t ih =>
    intro a
    by_cases hb : (a && nameHitBody (c :: t)) = true
    · have hsome : ∃ v, searchNameGo (c :: t) a = some v := by
        have ha : a = true := by
          cases a with
          | false => simp at hb
          | true => rfl
        have hbody : nameHitBody (c :: t) = true := by
          cases hnb : nameHitBody (c :: t) with
          | false => rw [ha, hnb] at hb; simp at hb
          | true => rfl
        have hpre : ("Name:".toList).isPrefixOf
            ((c :: t).drop (((c :: t).takeWhile pws).length)) = true := by
          have := hbody
          simp only [nameHitBody] at this
          exact (Bool.and_eq_true_iff.mp this).1
        have htail : (labelTailS ((c :: t).drop
            (((c :: t).takeWhile pws).length + 5))).isSome = true := by
          have := hbody
          simp only [nameHitBody] at this
          exact (Bool.and_eq_true_iff.mp this).2
        obtain ⟨v, hv⟩ := Option.isSome_iff_exists.mp htail
        refine ⟨v, ?_⟩
        simp only [searchNameGo, ha, if_true, hpre, hv]
      obtain ⟨v, hv⟩ := hsome
      rw [hv]
      constructor
      · intro h; exact absurd h (by simp)
      · intro hall
        have := hall 0
        simp only [anchoredHitAt] at this
        rw [hb] at this
        exact absurd this (by simp)
    · have hstep : searchNameGo (c :: t) a = searchNameGo t (decide (c = '\n')) := by
        simp only [searchNameGo]
        cases a with
        | false => simp
        | true =>
          have hbody : nameHitBody (c :: t) = false := by
            cases hnb : nameHitBody (c :: t) with
            | false => rfl
            | true => rw [hnb] at hb; simp at hb
          simp only [nameHitBody] at hbody
          cases hpre : ("Name:".toList).isPrefixOf
              ((c :: t).drop (((c :: t).takeWhile pws).length)) with
          | false => simp [hpre]
          | true =>
            rw [hpre] at hbody
            simp only [Bool.true_and] at hbody
            have hnone : labelTailS ((c :: t).drop
                (((c :: t).takeWhile pws).length + 5)) = none := by
              cases hlt : labelTailS ((c :: t).drop
                  (((c :: t).takeWhile pws).length + 5)) with
              | none => rfl
              | some w => rw [hlt] at hbody; simp at hbody
            have hnone2 : labelTailS (t.drop
                (((c :: t).takeWhile pws).length + 4)) = none := by
              simpa using hnone
            simp [hpre, hnone2]
      rw [hstep, ih]
      constructor
      · intro h p
        cases p with
        | zero =>
          simp only [anchoredHitAt]
          exact Bool.eq_false_iff.mpr hb
        | succ q => rw [anchoredHitAt_succ]; exact h q
      · intro h q
        have := h (q + 1)
        rw [anchoredHitAt_succ] at this
        exact this

lemma searchGenreIn_eq_none_of (t : List Char)
    (h : occursIn ("Genre:".toList) t = false) : searchGenreIn t = none := by
  induction t with
  | nil => rfl
  | cons c t ih =>
    have h0 : ("Genre:".toList).isPrefixOf (c :: t) = false := by
      have := occursIn_eq_false_iff.mp h 0
      simpa using this
    have ht : occursIn ("Genre:".toList) t = false := by
      rw [occursIn_eq_false_iff]
      intro j
      have := occursIn_eq_false_iff.mp h (j + 1)
      simpa using this
    simp only [searchGenreIn, h0, Bool.false_eq_true, if_false]
    exact ih ht

/--
Claim C5: when no line-start-anchored `Name:` field is found in the GAME INFO
section, extraction fails and returns no record at all; likewise the absence of
any `Genre:` occurrence in the text is a hard failure producing no record.
-/
theorem C5_required_fields :
    (∀ content : List Char,
        (∀ p, anchoredHitAt (gameInfoSection content) true p = false) →
        parse_version_nfo content = none)
    ∧ (∀ content : List Char, occursIn ("Genre:".toList) content = false →
        parse_version_nfo content = none) := by
  constructor
  · intro content h
    have hname : searchNameIn (gameInfoSection content) = none := by
      rw [searchNameIn, searchNameGo_eq_none_iff]
      exact h
    simp only [parse_version_nfo, hname]
  · intro content h
    have hg : searchGenreIn content = none := searchGenreIn_eq_none_of content h
    simp only [parse_version_nfo, hg]
    cases hname : searchNameIn (gameInfoSection content) <;> simp

lemma anchoredHitAt_of_ge {t : List Char} {a : Bool} {p : Nat} (h : t.length ≤ p) :
    anchoredHitAt t a p = false := by
  cases p with
  | zero =>
    have : t = [] := List.eq_nil_of_length_eq_zero (Nat.le_zero.mp h)
    subst this
    simp [anchoredHitAt, nameHitBody_nil]
  | succ q =>
    have hdrop : t.drop (q + 1) = [] := List.drop_eq_nil_of_le (by omega)
    simp [anchoredHitAt, hdrop, nameHitBody_nil]

lemma anchoredHit_forall_of_bounded {t : List Char} {a : Bool}
    (h : ∀ p, p < t.length → anchoredHitAt t a p = false) :
    ∀ p, anchoredHitAt t a p = false := by
  intro p
  by_cases hp : p < t.length
  · exact h p hp
  · exact anchoredHitAt_of_ge (by omega)

/-- Witness for C5: a text with a Genre but no `Name:` line, and a text with a
Name but no `Genre:` occurrence, both rejected outright. -/
theorem C5_witness :
    parse_version_nfo ("GAME INFO\nGenre: Puzzle\nGAME HISTORY\n".toList) = none
    ∧ parse_version_nfo ("GAME INFO\nName: Zorro\nPublished: 1987\n".toList) = none :=
  ⟨C5_required_fields.1 _ (anchoredHit_forall_of_bounded (by decide)),
   C5_required_fields.2 _ (by decide)⟩

/-!  Decode-ladder lemmas (claim C10). -/

lemma utf8Go_cons_ne_nil (fuel : Nat) (b : Fin 256) (rest : List (Fin 256)) :
    utf8Go fuel (b :: rest) ≠ some [] := by
  intro h
  cases fuel with
  | zero => exact Option.noConfusion h
  | succ f =>
    cases hh : utf8Head b rest with
    | none =>
      simp only [utf8Go, hh] at h
      exact Option.noConfusion h
    | some pr =>
      obtain ⟨cp, rest2⟩ := pr
      simp only [utf8Go, hh] at h
      obtain ⟨a, _, hcons⟩ := Option.map_eq_some'.mp h
      exact List.noConfusion hcons

lemma utf8DecodeStrict_cons_ne_nil (b : Fin 256) (rest : List (Fin 256)) :
    utf8DecodeStrict (b :: rest) ≠ some [] := utf8Go_cons_ne_nil _ b rest

lemma utf8Head_consumes {b : Fin 256} {rest rest2 : List (Fin 256)} {cp : Nat}
    (h : utf8Head b rest = some (cp, rest2)) : rest2.length ≤ rest.length := by
  unfold utf8Head at h
  repeat' split at h
  all_goals first
    | exact Option.noConfusion h
    | (injection h with h1
       injection h1 with h2 h3
       subst h3
       simp [List.length_cons]
       try omega)

/-- Any fuel at least the input length computes the strict decoder (each step
consumes at least the lead byte), so `utf8DecodeStrict` computes the
unbounded decoding loop. -/
lemma utf8Go_fuel : ∀ (f1 f2 : Nat) (l : List (Fin 256)),
    l.length ≤ f1 → l.length ≤ f2 → utf8Go f1 l = utf8Go f2 l := by
  intro f1
  induction f1 with
  | zero =>
    intro f2 l h1 _
    have : l = [] := List.eq_nil_of_length_eq_zero (Nat.le_zero.mp h1)
    subst this
    cases f2 <;> rfl
  | succ f ih =>
    intro f2 l h1 h2
    cases l with
    | nil => cases f2 <;> rfl
    | cons b rest =>
      cases f2 with
      | zero => simp at h2
      | succ g =>
        simp only [utf8Go]
        cases hh : utf8Head b rest with
        | none => rfl
        | some pr =>
          obtain ⟨cp, rest2⟩ := pr
          have hlen := utf8Head_consumes hh
          have hrec := ih g rest2 (by simp at h1; omega) (by simp at h2; omega)
          simp only [hrec]

lemma utf8DecodeStrict_eq_some_nil_iff (l : List (Fin 256)) :
    utf8DecodeStrict l = some [] ↔ l = [] := by
  cases l with
  | nil => exact iff_of_true rfl rfl
  | cons b rest =>
    constructor
    · intro h; exact absurd h (utf8DecodeStrict_cons_ne_nil b rest)
    · intro h; exact absurd h (by simp)

lemma cp1252_cons (b : Fin 256) (rest : List (Fin 256)) :
    cp1252DecodeStrict (b :: rest) =
      (match cp1252Byte b with
       | some v => (cp1252DecodeStrict rest).map (v :: ·)
       | none => none) := rfl

lemma cp1252_cons_ne_nil (b : Fin 256) (rest : List (Fin 256)) :
    cp1252DecodeStrict (b :: rest) ≠ some [] := by
  intro h
  rw [cp1252_cons] at h
  cases hcb : cp1252Byte b with
  | none => rw [hcb] at h; exact Option.noConfusion h
  | some v =>
    rw [hcb] at h
    obtain ⟨a, _, hcons⟩ := Option.map_eq_some'.mp h
    exact List.noConfusion hcons

lemma stripBom_eq_nil_iff (l : List (Fin 256)) :
    stripBom l = [] ↔ (l = [] ∨ l = bomBytes) := by
  unfold stripBom
  by_cases hp : bomBytes.isPrefixOf l
  · rw [if_pos hp]
    constructor
    · intro h
      right
      have hpre := List.isPrefixOf_iff_prefix.mp hp
      have hge : bomBytes.length ≤ l.length := hpre.length_le
      have hle : l.length ≤ 3 := by
        have := List.drop_eq_nil_iff.mp h
        omega
      have hlen : bomBytes.length = l.length := by
        have : bomBytes.length = 3 := by decide
        omega
      exact (hpre.eq_of_length hlen).symm
    · intro h
      rcases h with rfl | rfl
      · exact absurd hp (by decide)
      · decide
  · rw [if_neg hp]
    constructor
    · intro h; exact Or.inl h
    · intro h
      rcases h with rfl | rfl
      · rfl
      · exact absurd (by decide : bomBytes.isPrefixOf bomBytes = true) hp

lemma utf8Sig_eq_some_nil_iff (l : List (Fin 256)) :
    utf8SigDecodeStrict l = some [] ↔ (l = [] ∨ l = bomBytes) := by
  unfold utf8SigDecodeStrict
  rw [utf8DecodeStrict_eq_some_nil_iff, stripBom_eq_nil_iff]

lemma decodeStrictLadder_isSome (l : List (Fin 256)) :
    (decodeStrictLadder l).isSome = true := by
  unfold decodeStrictLadder
  cases utf8SigDecodeStrict l with
  | some c => rfl
  | none =>
    cases cp1252DecodeStrict l with
    | some c => rfl
    | none => rfl

lemma ladder_eq_some_nil_iff (l : List (Fin 256)) :
    decodeStrictLadder l = some [] ↔ (l = [] ∨ l = bomBytes) := by
  unfold decodeStrictLadder
  cases hu : utf8SigDecodeStrict l with
  | some c =>
    have := utf8Sig_eq_some_nil_iff l
    rw [hu] at this
    simpa using this
  | none =>
    have hlne : l ≠ [] := by
      intro h
      rw [h] at hu
      exact absurd hu (by decide)
    have hlnb : l ≠ bomBytes := by
      intro h
      rw [h] at hu
      exact absurd hu (by decide)
    obtain ⟨b, rest, rfl⟩ : ∃ b rest, l = b :: rest := by
      cases l with
      | nil => exact absurd rfl hlne
      | cons b rest => exact ⟨b, rest, rfl⟩
    cases hc : cp1252DecodeStrict (b :: rest) with
    | some c =>
      constructor
      · intro h
        have hcn : c = [] := by simpa using h
        subst hcn
        exact absurd hc (cp1252_cons_ne_nil b rest)
      · intro h
        rcases h with h | h
        · exact absurd h hlne
        · exact absurd h hlnb
    | none =>
      constructor
      · intro h
        have hlat : latin1Decode (b :: rest) = [] := by simpa using h
        simp [latin1Decode] at hlat
      · intro h
        rcases h with h | h
        · exact absurd h hlne
        · exact absurd h hlnb

lemma decodedContent_eq_nil_iff (l : List (Fin 256)) :
    decodedContent l = [] ↔ (l = [] ∨ l = bomBytes) := by
  obtain ⟨c, hc⟩ := Option.isSome_iff_exists.mp (decodeStrictLadder_isSome l)
  have hdc : decodedContent l = if c.isEmpty then utf8SigReplace l else c := by
    unfold decodedContent
    rw [hc]
  rw [hdc]
  by_cases hce : c.isEmpty
  · have hcnil : c = [] := by simpa using hce
    subst hcnil
    have hl : l = [] ∨ l = bomBytes := (ladder_eq_some_nil_iff l).mp hc
    rw [if_pos hce]
    refine iff_of_true ?_ hl
    rcases hl with rfl | rfl
    · rfl
    · decide
  · have hcne : c ≠ [] := by
      intro h
      rw [h] at hce
      exact hce (by decide)
    rw [if_neg hce]
    constructor
    · intro h; exact absurd h hcne
    · intro h
      have := (ladder_eq_some_nil_iff l).mpr h
      rw [hc] at this
      exact absurd (by injection this) hcne

/--
Claim C10 (amended): the strict ladder is total (its final latin-1 rung accepts
every byte sequence), and the decode-failure branch is taken exactly when the
decoded content is the empty string, which happens precisely for the empty file
and the file consisting solely of the UTF-8 BOM — so it is unreachable for any
other input, but a BOM-only (hence non-empty) file does reach it.
-/
theorem C10_decode_failure :
    (∀ l : List (Fin 256), (decodeStrictLadder l).isSome = true)
    ∧ (∀ l : List (Fin 256), decodePhase l = none ↔ (l = [] ∨ l = bomBytes)) := by
  refine ⟨decodeStrictLadder_isSome, ?_⟩
  intro l
  unfold decodePhase
  by_cases he : (decodedContent l).isEmpty
  · rw [if_pos he]
    refine iff_of_true rfl ?_
    exact (decodedContent_eq_nil_iff l).mp (by simpa using he)
  · rw [if_neg he]
    constructor
    · intro h; exact absurd h (by simp)
    · intro h
      have := (decodedContent_eq_nil_iff l).mpr h
      rw [this] at he
      exact absurd (by decide : (List.isEmpty ([] : List Nat)) = true) he

/--
Counterexample to C10 as stated: the file consisting solely of the UTF-8
byte-order mark is a non-empty input for which the decode-failure branch is
reached (decoding succeeds with empty text, which the code treats as failure).
-/
theorem C10_counterexample :
    (([239, 187, 191] : List (Fin 256)) ≠ [])
    ∧ decodePhase ([239, 187, 191] : List (Fin 256)) = none :=
  ⟨by decide, by decide⟩

/-!  Substitution-mapping sanitization (claim C4). -/

lemma digit_not_forbidden {a : Char} (h : a.isDigit = true) : forbiddenChar a = false := by
  rw [forbiddenChar_eq_false_iff]
  refine ⟨?_, ?_, ?_, ?_⟩
  · rintro rfl; exact absurd h (by decide)
  · rintro rfl; exact absurd h (by decide)
  · cases hb : isBracket a with
    | false => rfl
    | true =>
      exfalso
      have : a = '[' ∨ a = ']' := by
        simpa [isBracket] using hb
      rcases this with rfl | rfl <;> exact absurd h (by decide)
  · cases hb : isInvalidWin a with
    | false => rfl
    | true =>
      exfalso
      have hdis : (((((a = '<' ∨ a = '>') ∨ a = ':') ∨ a = '\"') ∨ a = '|') ∨ a = '?') ∨ a = '*' := by
        simpa [isInvalidWin] using hb
      rcases hdis with ((((ity | rfl) | rfl) | rfl) | rfl) | rfl
      case _ => rcases ity with ((rfl | rfl) | rfl) <;> exact absurd h (by decide)
      all_goals exact absurd h (by decide)

/--
Counterexample to C4 as stated: `unique_id` is placed in the substitution
mapping verbatim, not sanitized, so a record whose unique id contains `<`
produces a destination path whose segment contains a character forbidden by
the sanitizer.
-/
theorem C4_counterexample :
    lookupSub (buildSubs sampleUidRecord ("Z".toList)) ("unique_id".toList)
        = some ("a<b".toList)
    ∧ sanitize_folder_name ("a<b".toList) = "ab".toList
    ∧ ("a<b".toList ≠ "ab".toList)
    ∧ build_destination_path ("{unique_id}".toList) sampleUidRecord ("Z".toList)
        = .ok ("a<b".toList)
    ∧ splitSeg ("a<b".toList) = [("a<b".toList)]
    ∧ noForbidden ("a<b".toList) = false :=
  ⟨by decide, by decide, by decide, by decide, by decide, by decide⟩

/--
Claim C4 (amended): the substitution mapping holds the sanitized value (default
substituted before sanitization) for every field except `published_year`, which
is only `?`-to-`x` replaced, and `unique_id`, which is used verbatim after
default substitution; sanitized values never contain a forbidden character, and
a parser-shaped published year (4 digits-or-`?` characters, or `Unknown`) is
also forbidden-character-free after the replacement.
-/
theorem C4_subs_sanitization :
    (∀ (m : Record) (zipStem : List Char),
      lookupSub (buildSubs m zipStem) ("name".toList)
          = some (sanitize_folder_name (orDefaultS m.name zipStem))
      ∧ lookupSub (buildSubs m zipStem) ("primary_genre".toList)
          = some (sanitize_folder_name (orDefaultS m.primary_genre ("Unknown".toList)))
      ∧ lookupSub (buildSubs m zipStem) ("secondary_genre".toList)
          = some (sanitize_folder_name (orDefaultS m.secondary_genre ("Other".toList)))
      ∧ lookupSub (buildSubs m zipStem) ("language".toList)
          = some (sanitize_folder_name (orDefaultS m.language ("Unknown".toList)))
      ∧ lookupSub (buildSubs m zipStem) ("publisher".toList)
          = some (sanitize_folder_name (orDefaultS m.publisher ("Unknown".toList)))
      ∧ lookupSub (buildSubs m zipStem) ("players".toList)
          = some (sanitize_folder_name (orDefaultS m.players ("Unknown".toList)))
      ∧ lookupSub (buildSubs m zipStem) ("control".toList)
          = some (sanitize_folder_name (orDefaultS m.control ("Unknown".toList)))
      ∧ lookupSub (buildSubs m zipStem) ("pal_ntsc".toList)
          = some (sanitize_folder_name (orDefaultS m.pal_ntsc ("Unknown".toList)))
      ∧ lookupSub (buildSubs m zipStem) ("developer".toList)
          = some (sanitize_folder_name (orDefaultO m.developer ("Unknown".toList)))
      ∧ lookupSub (buildSubs m zipStem) ("coding".toList)
          = some (sanitize_folder_name (orDefaultO m.coding ("Unknown".toList)))
      ∧ lookupSub (buildSubs m zipStem) ("graphics".toList)
          = some (sanitize_folder_name (orDefaultO m.graphics ("Unknown".toList)))
      ∧ lookupSub (buildSubs m zipStem) ("music".toList)
          = some (sanitize_folder_name (orDefaultO m.music ("Unknown".toList)))
      ∧ lookupSub (buildSubs m zipStem) ("comment".toList)
          = some (sanitize_folder_name (orDefaultO m.comment ("Unknown".toList)))
      ∧ lookupSub (buildSubs m zipStem) ("published_year".toList)
          = some ((orDefaultS m.published_year ("Unknown".toList)).map qToX)
      ∧ lookupSub (buildSubs m zipStem) ("unique_id".toList)
          = some (orDefaultO m.unique_id ("Unknown".toList)))
    ∧ (∀ s : List Char, noForbidden (sanitize_folder_name s) = true)
    ∧ (∀ s : List Char, (yearShaped s = true ∨ s = "Unknown".toList) →
        noForbidden (s.map qToX) = true) := by
  refine ⟨?_, noForbidden_sanitize, ?_⟩
  · intro m zipStem
    exact ⟨rfl, rfl, rfl, rfl, rfl, rfl, rfl, rfl, rfl, rfl, rfl, rfl, rfl, rfl, rfl⟩
  · intro s h
    rcases h with hy | rfl
    · simp only [noForbidden, List.all_eq_true]
      intro c hc
      obtain ⟨a, ha, rfl⟩ := List.mem_map.mp hc
      have hy2 : s.length = 4 ∧ ∀ x ∈ s, x.isDigit = true ∨ x = '?' := by
        simpa [yearShaped] using hy
      have hdq : a.isDigit = true ∨ a = '?' := hy2.2 a ha
      rcases hdq with hd | rfl
      · have hne : a ≠ '?' := by
          rintro rfl; exact absurd hd (by decide)
        have : qToX a = a := by simp [qToX, hne]
        rw [this]
        simp [digit_not_forbidden hd]
      · have : qToX '?' = 'x' := by decide
        rw [this]
        decide
    · decide

/-- Witness for C4's year clause: the parser-shaped year `198?` maps to `198x`,
which is free of forbidden characters. -/
theorem C4_witness :
    noForbidden (("198?".toList).map qToX) = true :=
  C4_subs_sanitization.2.2 ("198?".toList) (Or.inl (by decide))

/-!  Collision-probe lemmas (claim C2). -/

lemma probeAux_of_not_mem {existing : List (List (List Char))} {base : List (List Char)}
    {g : List Char} {fuel v : Nat} {cur : List (List Char)} (h : cur ∉ existing) :
    probeAux existing base g fuel v cur = cur := by
  cases fuel <;> simp [probeAux, h]

lemma probeAux_spec (existing : List (List (List Char))) (base : List (List Char))
    (g : List Char) :
    ∀ (fuel v : Nat) (cur : List (List Char)),
      (cur ∉ existing ∨ ∃ k, k < fuel ∧ (base ++ [versionedName g (v + k)]) ∉ existing) →
      (probeAux existing base g fuel v cur ∉ existing
       ∧ (probeAux existing base g fuel v cur = cur
          ∨ ∃ j, v ≤ j ∧ probeAux existing base g fuel v cur = base ++ [versionedName g j])) := by
  intro fuel
  induction fuel with
  | zero =>
    intro v cur h
    rcases h with h | ⟨k, hk, _⟩
    · rw [probeAux_of_not_mem h]; exact ⟨h, Or.inl rfl⟩
    · omega
  | succ f ih =>
    intro v cur h
    by_cases hc : cur ∈ existing
    · have hstep : probeAux existing base g (f + 1) v cur
          = probeAux existing base g f (v + 1) (base ++ [versionedName g v]) := by
        simp [probeAux, hc]
      rw [hstep]
      have h2 : (base ++ [versionedName g v]) ∉ existing
          ∨ ∃ k, k < f ∧ (base ++ [versionedName g (v + 1 + k)]) ∉ existing := by
        rcases h with h | ⟨k, hk, hkm⟩
        · exact absurd hc h
        · cases k with
          | zero => left; simpa using hkm
          | succ kp =>
            right
            refine ⟨kp, by omega, ?_⟩
            have harith : v + 1 + kp = v + (kp + 1) := by omega
            rw [harith]
            exact hkm
      obtain ⟨h3, h4⟩ := ih (v + 1) (base ++ [versionedName g v]) h2
      refine ⟨h3, ?_⟩
      rcases h4 with h4 | ⟨j, hj, h4⟩
      · right; exact ⟨v, le_refl v, h4⟩
      · right; exact ⟨j, by omega, h4⟩
    · rw [probeAux_of_not_mem hc]; exact ⟨hc, Or.inl rfl⟩

/--
Counterexample to C2 as stated: with the template `Games-{name}` (which passes
the ends-with-`{name}` test) and game name `Zorro`, the colliding candidate
`Games-Zorro` is not disambiguated by appending `" [v2]"` to its last path
segment (`Games-Zorro [v2]`): the code replaces the last segment with
`game_name [v2]`, yielding `Zorro [v2]`.
-/
theorem C2_counterexample :
    resolveFinalDest [[("Games-Zorro".toList)]] [] ("Games-{name}".toList) zorroRecord
        ("Z".toList) 10 = .ok [("Zorro [v2]".toList)]
    ∧ ("Zorro [v2]".toList ≠ "Games-Zorro [v2]".toList) :=
  ⟨by decide, by decide⟩

/--
Claim C2 (amended): the collision probe returns a path not in the existing set
(given enough fuel for the unbounded Python loop, i.e. some versioned candidate
escapes the finite set); the versioned candidates replace the last path segment
with `"<game name> [vN]"` — which coincides with appending `" [vN]"` to the
last segment whenever that segment is the sanitized game name, as with the
default template — with N counted up from 2, so a first collision yields
`[v2]` and a second yields `[v3]` (the concrete clauses are the spec's
`Root/Action/Platformer/English/Zorro` example).
-/
theorem C2_collision_probe :
    (∀ (existing : List (List (List Char))) (root : List (List Char))
        (template : List Char) (m : Record) (zipStem : List Char) (fuel : Nat)
        (pathStr gname : List Char) (destPath base first : List (List Char)),
      build_destination_path template m zipStem = .ok pathStr →
      gname = sanitize_folder_name (orDefaultS m.name zipStem) →
      destPath = root ++ splitSeg pathStr →
      base = (if endsWithNameFlag template then destPath.dropLast else destPath) →
      first = (if endsWithNameFlag template then destPath else destPath ++ [gname]) →
      (first ∉ existing ∨ ∃ k, k < fuel ∧ (base ++ [versionedName gname (2 + k)]) ∉ existing) →
      ∃ res, resolveFinalDest existing root template m zipStem fuel = .ok res
        ∧ res ∉ existing
        ∧ (res = first ∨ ∃ v, 2 ≤ v ∧ res = base ++ [versionedName gname v])
        ∧ (first ∈ existing → ∃ v, 2 ≤ v ∧ res = base ++ [versionedName gname v]))
    ∧ resolveFinalDest
        [[ "Action".toList, "Platformer".toList, "English".toList, "Zorro".toList ]]
        [] ("{primary_genre}/{secondary_genre}/{language}/{name}".toList)
        zorroRecord ("Z".toList) 10
        = .ok [ "Action".toList, "Platformer".toList, "English".toList, "Zorro [v2]".toList ]
    ∧ resolveFinalDest
        [ [ "Action".toList, "Platformer".toList, "English".toList, "Zorro".toList ]
        , [ "Action".toList, "Platformer".toList, "English".toList, "Zorro [v2]".toList ] ]
        [] ("{primary_genre}/{secondary_genre}/{language}/{name}".toList)
        zorroRecord ("Z".toList) 10
        = .ok [ "Action".toList, "Platformer".toList, "English".toList, "Zorro [v3]".toList ] := by
  refine ⟨?_, by decide, by decide⟩
  intro existing root template m zipStem fuel pathStr gname destPath base first
    hbuild hg hd hb hf hescape
  have hres : resolveFinalDest existing root template m zipStem fuel
      = .ok (probeAux existing base gname fuel 2 first) := by
    unfold resolveFinalDest
    rw [hbuild]
    simp only []
    rw [← hg, ← hd, ← hb, ← hf]
  obtain ⟨h1, h2⟩ := probeAux_spec existing base gname fuel 2 first hescape
  refine ⟨probeAux existing base gname fuel 2 first, hres, h1, ?_, ?_⟩
  · rcases h2 with h2 | ⟨j, hj, h2⟩
    · exact Or.inl h2
    · exact Or.inr ⟨j, hj, h2⟩
  · intro hmem
    rcases h2 with h2 | ⟨j, hj, h2⟩
    · rw [h2] at h1; exact absurd hmem h1
    · exact ⟨j, hj, h2⟩

/-- Witness for C2: an empty filesystem, where the probe returns the first
candidate untouched. -/
theorem C2_witness :
    ∃ res, resolveFinalDest [] [] ("{name}".toList) zorroRecord ("Z".toList) 1 = .ok res
      ∧ res ∉ ([] : List (List (List Char)))
      ∧ (res = [("Zorro".toList)]
         ∨ ∃ v, 2 ≤ v ∧ res = [] ++ [versionedName ("Zorro".toList) v])
      ∧ ([("Zorro".toList)] ∈ ([] : List (List (List Char))) →
          ∃ v, 2 ≤ v ∧ res = [] ++ [versionedName ("Zorro".toList) v]) :=
  C2_collision_probe.1 [] [] ("{name}".toList) zorroRecord ("Z".toList) 1
    ("Zorro".toList) ("Zorro".toList) [("Zorro".toList)] [] [("Zorro".toList)]
    (by decide) (by decide) (by decide) (by decide) (by decide) (by decide)

/-!  Disk-renamer lemmas (claim C6). -/

lemma mem_insertBy {α : Type} (lt : α → α → Bool) (x a : α) :
    ∀ l, a ∈ insertBy lt x l ↔ a = x ∨ a ∈ l := by
  intro l
  induction l with
  | nil => simp [insertBy]
  | cons y ys ih =>
    simp only [insertBy]
    by_cases h : lt y x = true
    · rw [if_pos h]
      simp [ih, or_left_comm]
    · rw [if_neg h]
      simp

lemma mem_sortBy {α : Type} (lt : α → α → Bool) (a : α) :
    ∀ l, a ∈ sortBy lt l ↔ a ∈ l := by
  intro l
  induction l with
  | nil => simp [sortBy]
  | cons x xs ih => simp [sortBy, mem_insertBy, ih]

lemma snd_mem_of_mem_enumFrom {α : Type} (p : Nat × α) :
    ∀ (n : Nat) (l : List α), p ∈ List.enumFrom n l → p.2 ∈ l := by
  intro n l
  induction l generalizing n with
  | nil => intro h; simp [List.enumFrom] at h
  | cons x xs ih =>
    intro h
    simp only [List.enumFrom, List.mem_cons] at h
    rcases h with h | h
    · simp [h]
    · exact List.mem_cons_of_mem x (ih (n + 1) h)

lemma get_mem_enumFrom {α : Type} :
    ∀ (l : List α) (n i : Nat) (h : i < l.length),
      (n + i, l.get ⟨i, h⟩) ∈ List.enumFrom n l := by
  intro l
  induction l with
  | nil => intro n i h; simp at h
  | cons x xs ih =>
    intro n i h
    cases i with
    | zero => simp [List.enumFrom]
    | succ j =>
      have hmem := ih (n + 1) j (by simpa using h)
      simp only [List.enumFrom, List.mem_cons]
      right
      have harith : n + (j + 1) = (n + 1) + j := by omega
      rw [harith]
      simpa using hmem

/--
Claim C6: the disk renamer selects exactly the regular files (found recursively)
whose extension case-insensitively belongs to the fixed set, sorts them by full
path, and renames the i-th (1-based, in sort order) inside its own folder to
`<name>_d<i><ext>`; a file already at its target name is a no-op, and
directories are never considered.  The concrete clause is the spec's Turrican
example.
-/
theorem C6_disk_renamer :
    rename_disk_files
        [⟨[("b.d64".toList)], true⟩, ⟨[("a.d64".toList)], true⟩, ⟨[("c.d64".toList)], true⟩]
        ("Turrican".toList)
      = [([("a.d64".toList)], [("Turrican_d1.d64".toList)]),
         ([("b.d64".toList)], [("Turrican_d2.d64".toList)]),
         ([("c.d64".toList)], [("Turrican_d3.d64".toList)])]
    ∧ (∀ (entries : List FsEntry) (g : List Char) (src tgt : List (List Char)),
        (src, tgt) ∈ rename_disk_files entries g → src ≠ tgt)
    ∧ (∀ (entries : List FsEntry) (g : List Char) (src tgt : List (List Char)),
        (src, tgt) ∈ rename_disk_files entries g →
        ∃ e, e ∈ entries ∧ e.segs = src ∧ e.isFile = true
          ∧ diskExtensions.contains ((pySuffix (lastSeg e.segs)).map Char.toLower) = true)
    ∧ (∀ (entries : List FsEntry) (g : List Char) (i : Nat)
        (h : i < (sortBy (fun a b => segsLt a.segs b.segs) (entries.filter isDiskFile)).length),
        diskTarget g i ((sortBy (fun a b => segsLt a.segs b.segs)
            (entries.filter isDiskFile)).get ⟨i, h⟩)
          ≠ ((sortBy (fun a b => segsLt a.segs b.segs)
            (entries.filter isDiskFile)).get ⟨i, h⟩).segs →
        (((sortBy (fun a b => segsLt a.segs b.segs)
            (entries.filter isDiskFile)).get ⟨i, h⟩).segs,
          diskTarget g i ((sortBy (fun a b => segsLt a.segs b.segs)
            (entries.filter isDiskFile)).get ⟨i, h⟩)) ∈ rename_disk_files entries g) := by
  refine ⟨by decide, ?_, ?_, ?_⟩
  · intro entries g src tgt h
    simp only [rename_disk_files, List.mem_filterMap] at h
    obtain ⟨p, _, hf⟩ := h
    by_cases heq : diskTarget g p.1 p.2 = p.2.segs
    · rw [if_pos heq] at hf
      exact Option.noConfusion hf
    · rw [if_neg heq] at hf
      injection hf with hpair
      injection hpair with h1 h2
      rw [← h1, ← h2]
      intro hcon
      exact heq hcon.symm
  · intro entries g src tgt h
    simp only [rename_disk_files, List.mem_filterMap] at h
    obtain ⟨p, hp, hf⟩ := h
    have hmem : p.2 ∈ sortBy (fun a b => segsLt a.segs b.segs) (entries.filter isDiskFile) :=
      snd_mem_of_mem_enumFrom p 0 _ hp
    have hfil : p.2 ∈ entries.filter isDiskFile := (mem_sortBy _ _ _).mp hmem
    have hent : p.2 ∈ entries := List.mem_of_mem_filter hfil
    have hdisk : isDiskFile p.2 = true := List.of_mem_filter hfil
    have hsplit : p.2.isFile = true ∧
        diskExtensions.contains ((pySuffix (lastSeg p.2.segs)).map Char.toLower) = true := by
      have hd := hdisk
      unfold isDiskFile at hd
      exact Bool.and_eq_true_iff.mp hd
    by_cases heq : diskTarget g p.1 p.2 = p.2.segs
    · rw [if_pos heq] at hf
      exact Option.noConfusion hf
    · rw [if_neg heq] at hf
      injection hf with hpair
      injection hpair with h1 _
      exact ⟨p.2, hent, h1, hsplit.1, hsplit.2⟩
  · intro entries g i h hne
    simp only [rename_disk_files, List.mem_filterMap]
    refine ⟨(i, (sortBy (fun a b => segsLt a.segs b.segs)
        (entries.filter isDiskFile)).get ⟨i, h⟩), ?_, ?_⟩
    · have := get_mem_enumFrom (sortBy (fun a b => segsLt a.segs b.segs)
        (entries.filter isDiskFile)) 0 i h
      simpa [List.enum] using this
    · rw [if_neg hne]

/-- Witness for C6: the first file in sort order of the Turrican example is
renamed to `Turrican_d1.d64`. -/
theorem C6_witness :
    ([("a.d64".toList)], [("Turrican_d1.d64".toList)]) ∈
      rename_disk_files
        [⟨[("b.d64".toList)], true⟩, ⟨[("a.d64".toList)], true⟩, ⟨[("c.d64".toList)], true⟩]
        ("Turrican".toList) := by
  have h : (0 : Nat) < (sortBy (fun a b => segsLt a.segs b.segs)
      (([⟨[("b.d64".toList)], true⟩, ⟨[("a.d64".toList)], true⟩,
         ⟨[("c.d64".toList)], true⟩] : List FsEntry).filter isDiskFile)).length := by decide
  have hgets : ((sortBy (fun a b => segsLt a.segs b.segs)
      (([⟨[("b.d64".toList)], true⟩, ⟨[("a.d64".toList)], true⟩,
         ⟨[("c.d64".toList)], true⟩] : List FsEntry).filter isDiskFile)).get ⟨0, h⟩).segs
      = [("a.d64".toList)] := by rfl
  have htgt : diskTarget ("Turrican".toList) 0
      ((sortBy (fun a b => segsLt a.segs b.segs)
        (([⟨[("b.d64".toList)], true⟩, ⟨[("a.d64".toList)], true⟩,
           ⟨[("c.d64".toList)], true⟩] : List FsEntry).filter isDiskFile)).get ⟨0, h⟩)
      = [("Turrican_d1.d64".toList)] := by rfl
  have hne : diskTarget ("Turrican".toList) 0
      ((sortBy (fun a b => segsLt a.segs b.segs)
        (([⟨[("b.d64".toList)], true⟩, ⟨[("a.d64".toList)], true⟩,
           ⟨[("c.d64".toList)], true⟩] : List FsEntry).filter isDiskFile)).get ⟨0, h⟩)
      ≠ ((sortBy (fun a b => segsLt a.segs b.segs)
        (([⟨[("b.d64".toList)], true⟩, ⟨[("a.d64".toList)], true⟩,
           ⟨[("c.d64".toList)], true⟩] : List FsEntry).filter isDiskFile)).get ⟨0, h⟩).segs := by
    rw [htgt, hgets]
    decide
  have hmem := C6_disk_renamer.2.2.2
    [⟨[("b.d64".toList)], true⟩, ⟨[("a.d64".toList)], true⟩, ⟨[("c.d64".toList)], true⟩]
    ("Turrican".toList) 0 h hne
  rw [hgets, htgt] at hmem
  exact hmem

/-!  Template-formatting lemmas (claim C8). -/

lemma fmtT_nil (subs : List (List Char × List Char)) (fuel : Nat) :
    fmtT subs fuel [] = .ok [] := by
  cases fuel <;> rfl

lemma fmtT_lit (subs : List (List Char × List Char)) (fuel : Nat) (c : Char) (rest : List Char)
    (h1 : c ≠ lbrace) (h2 : c ≠ rbrace) :
    fmtT subs (fuel + 1) (c :: rest) = (fmtT subs fuel rest).map (c :: ·) := by
  simp only [fmtT]
  simp [h1, h2]

lemma fmtT_esc_l (subs : List (List Char × List Char)) (fuel : Nat) (rest : List Char) :
    fmtT subs (fuel + 1) (lbrace :: lbrace :: rest)
      = (fmtT subs fuel rest).map (lbrace :: ·) := by
  simp only [fmtT]
  simp

lemma fmtT_esc_r (subs : List (List Char × List Char)) (fuel : Nat) (rest : List Char) :
    fmtT subs (fuel + 1) (rbrace :: rbrace :: rest)
      = (fmtT subs fuel rest).map (rbrace :: ·) := by
  simp only [fmtT]
  simp [(by decide : rbrace ≠ lbrace)]

lemma fmtT_open_nil (subs : List (List Char × List Char)) (fuel : Nat) :
    fmtT subs (fuel + 1) [lbrace] = .error .malformed := by
  simp only [fmtT]
  simp

lemma fmtT_close_nil (subs : List (List Char × List Char)) (fuel : Nat) :
    fmtT subs (fuel + 1) [rbrace] = .error .malformed := by
  simp only [fmtT]
  simp [(by decide : rbrace ≠ lbrace)]

lemma fmtT_close_bad (subs : List (List Char × List Char)) (fuel : Nat) (d : Char)
    (rest2 : List Char) (hd : d ≠ rbrace) :
    fmtT subs (fuel + 1) (rbrace :: d :: rest2) = .error .malformed := by
  simp only [fmtT]
  simp [(by decide : rbrace ≠ lbrace), hd]

lemma fmtT_field (subs : List (List Char × List Char)) (fuel : Nat) (d : Char)
    (rest2 : List Char) (hd : d ≠ lbrace) :
    fmtT subs (fuel + 1) (lbrace :: d :: rest2) =
      (match (d :: rest2).drop
          ((d :: rest2).takeWhile (fun c2 => !fieldNameEnd c2)).length with
       | [] => .error .malformed
       | t :: rest4 =>
         if t = rbrace then
           if ((d :: rest2).takeWhile (fun c2 => !fieldNameEnd c2)).all Char.isDigit then
             .error .indexErr
           else
             match lookupSub subs ((d :: rest2).takeWhile (fun c2 => !fieldNameEnd c2)) with
             | some v => (fmtT subs fuel rest4).map (v ++ ·)
             | none => .error (.keyErr ((d :: rest2).takeWhile (fun c2 => !fieldNameEnd c2)))
         else .error .featErr) := by
  simp only [fmtT]
  simp [hd]

lemma map_cons_ok {e : Except FmtErr (List Char)} {s : List Char} {g : List Char → List Char}
    (h : e.map g = .ok s) : ∃ s2, e = .ok s2 ∧ s = g s2 := by
  cases e with
  | error err => simp [Except.map] at h
  | ok s2 =>
    refine ⟨s2, rfl, ?_⟩
    simp only [Except.map] at h
    injection h with h2
    exact h2.symm

lemma takeWhile_append_eq {p : Char → Bool} :
    ∀ {l1 : List Char} (l2 : List Char),
      (l1.takeWhile p).length < l1.length → (l1 ++ l2).takeWhile p = l1.takeWhile p := by
  intro l1
  induction l1 with
  | nil => intro l2 h; simp at h
  | cons x xs ih =>
    intro l2 h
    by_cases hp : p x = true
    · simp only [List.takeWhile, hp, List.cons_append] at h ⊢
      simp only [List.length_cons, Nat.add_lt_add_iff_right] at h
      simp only [List.append_eq]
      rw [ih l2 h]
    · simp only [List.takeWhile, List.cons_append]
      rw [Bool.eq_false_iff.mpr hp]

lemma fmtT_fuel (subs : List (List Char × List Char)) :
    ∀ (f1 : Nat) (l : List Char) (f2 : Nat),
      l.length ≤ f1 → l.length ≤ f2 → fmtT subs f1 l = fmtT subs f2 l := by
  intro f1
  induction f1 with
  | zero =>
    intro l f2 h1 _
    have hl : l = [] := List.eq_nil_of_length_eq_zero (Nat.le_zero.mp h1)
    subst hl
    rw [fmtT_nil, fmtT_nil]
  | succ f ih =>
    intro l f2 h1 h2
    cases l with
    | nil => rw [fmtT_nil, fmtT_nil]
    | cons c rest =>
      cases f2 with
      | zero => simp at h2
      | succ g =>
        have hrest1 : rest.length ≤ f := by simp at h1; omega
        have hrest2 : rest.length ≤ g := by simp at h2; omega
        by_cases hcl : c = lbrace
        · subst hcl
          cases rest with
          | nil => rw [fmtT_open_nil, fmtT_open_nil]
          | cons d rest2 =>
            by_cases hdl : d = lbrace
            · subst hdl
              rw [fmtT_esc_l, fmtT_esc_l]
              rw [ih rest2 g (by simp at hrest1; omega) (by simp at hrest2; omega)]
            · rw [fmtT_field subs f d rest2 hdl, fmtT_field subs g d rest2 hdl]
              cases hr3 : (d :: rest2).drop
                  ((d :: rest2).takeWhile (fun c2 => !fieldNameEnd c2)).length with
              | nil => rfl
              | cons x rest4 =>
                simp only []
                by_cases hx : x = rbrace
                · rw [if_pos hx, if_pos hx]
                  by_cases hdig :
                      ((d :: rest2).takeWhile (fun c2 => !fieldNameEnd c2)).all Char.isDigit
                      = true
                  · rw [if_pos hdig, if_pos hdig]
                  · rw [if_neg hdig, if_neg hdig]
                    cases hlk : lookupSub subs
                        ((d :: rest2).takeWhile (fun c2 => !fieldNameEnd c2)) with
                    | none => rfl
                    | some v =>
                      simp only []
                      have hlen4 : rest4.length ≤ rest2.length := by
                        have := congrArg List.length hr3
                        simp only [List.length_drop, List.length_cons] at this
                        omega
                      rw [ih rest4 g (by simp at hrest1; omega) (by simp at hrest2; omega)]
                · rw [if_neg hx, if_neg hx]
        · by_cases hcr : c = rbrace
          · subst hcr
            cases rest with
            | nil => rw [fmtT_close_nil, fmtT_close_nil]
            | cons d rest2 =>
              by_cases hdr : d = rbrace
              · subst hdr
                rw [fmtT_esc_r, fmtT_esc_r]
                rw [ih rest2 g (by simp at hrest1; omega) (by simp at hrest2; omega)]
              · rw [fmtT_close_bad subs f d rest2 hdr, fmtT_close_bad subs g d rest2 hdr]
          · rw [fmtT_lit subs f c rest hcl hcr, fmtT_lit subs g c rest hcl hcr]
            rw [ih rest g hrest1 hrest2]

lemma fmtT_append (subs : List (List Char × List Char)) :
    ∀ (fuel : Nat) (pre s suf : List Char),
      pre.length + suf.length ≤ fuel →
      fmtT subs fuel pre = .ok s →
      fmtT subs fuel (pre ++ suf) = Except.map (fun r => s ++ r) (fmtT subs fuel suf) := by
  intro fuel
  induction fuel with
  | zero =>
    intro pre s suf hb hok
    have hpre : pre = [] := List.eq_nil_of_length_eq_zero (by omega)
    have hsuf : suf = [] := List.eq_nil_of_length_eq_zero (by omega)
    subst hpre; subst hsuf
    rw [fmtT_nil] at hok
    injection hok with hs
    subst hs
    simp [fmtT_nil, Except.map]
  | succ f ih =>
    intro pre s suf hb hok
    cases pre with
    | nil =>
      rw [fmtT_nil] at hok
      injection hok with hs
      subst hs
      cases hr : fmtT subs (f + 1) suf <;> simp [hr, Except.map]
    | cons c rest =>
      have hb' : rest.length + suf.length ≤ f := by simp at hb; omega
      by_cases hcl : c = lbrace
      · subst hcl
        cases rest with
        | nil =>
          rw [fmtT_open_nil] at hok
          exact Except.noConfusion hok
        | cons d rest2 =>
          by_cases hdl : d = lbrace
          · subst hdl
            rw [fmtT_esc_l] at hok
            obtain ⟨s2, hs2, hmap⟩ := map_cons_ok hok
            have hb2 : rest2.length + suf.length ≤ f := by simp at hb; omega
            show fmtT subs (f + 1) (lbrace :: lbrace :: (rest2 ++ suf)) = _
            rw [fmtT_esc_l]
            rw [ih rest2 s2 suf hb2 hs2]
            rw [show fmtT subs (f + 1) suf = fmtT subs f suf from
              fmtT_fuel subs (f + 1) suf f (by omega) (by omega)]
            cases hsf : fmtT subs f suf <;> simp [Except.map, hmap]
          · rw [fmtT_field subs f d rest2 hdl] at hok
            cases hr3 : (d :: rest2).drop
                ((d :: rest2).takeWhile (fun c2 => !fieldNameEnd c2)).length with
            | nil =>
              simp only [hr3] at hok
              exact Except.noConfusion hok
            | cons x rest4 =>
              simp only [hr3] at hok
              by_cases hx : x = rbrace
              · rw [if_pos hx] at hok
                by_cases hdig :
                    ((d :: rest2).takeWhile (fun c2 => !fieldNameEnd c2)).all Char.isDigit
                    = true
                · rw [if_pos hdig] at hok
                  exact Except.noConfusion hok
                · rw [if_neg hdig] at hok
                  cases hlk : lookupSub subs
                      ((d :: rest2).takeWhile (fun c2 => !fieldNameEnd c2)) with
                  | none =>
                    simp only [hlk] at hok
                    exact Except.noConfusion hok
                  | some v =>
                    simp only [hlk] at hok
                    obtain ⟨s2, hs2, hmap⟩ := map_cons_ok hok
                    have hlenTW : ((d :: rest2).takeWhile (fun c2 => !fieldNameEnd c2)).length
                        < (d :: rest2).length := by
                      have hlen := congrArg List.length hr3
                      simp only [List.length_drop, List.length_cons] at hlen
                      have hle : ((d :: rest2).takeWhile (fun c2 => !fieldNameEnd c2)).length
                          ≤ (d :: rest2).length := (List.takeWhile_prefix _).length_le
                      simp only [List.length_cons] at hle ⊢
                      omega
                    have hlen4 : rest4.length ≤ rest2.length := by
                      have hlen := congrArg List.length hr3
                      simp only [List.length_drop, List.length_cons] at hlen
                      omega
                    show fmtT subs (f + 1) (lbrace :: ((d :: rest2) ++ suf)) = _
                    rw [show (d :: rest2) ++ suf = d :: (rest2 ++ suf) from rfl]
                    rw [fmtT_field subs f d (rest2 ++ suf) hdl]
                    have htw : (d :: (rest2 ++ suf)).takeWhile (fun c2 => !fieldNameEnd c2)
                        = (d :: rest2).takeWhile (fun c2 => !fieldNameEnd c2) := by
                      rw [show d :: (rest2 ++ suf) = (d :: rest2) ++ suf from rfl]
                      exact takeWhile_append_eq suf hlenTW
                    rw [htw]
                    have hdrop : (d :: (rest2 ++ suf)).drop
                        ((d :: rest2).takeWhile (fun c2 => !fieldNameEnd c2)).length
                        = x :: (rest4 ++ suf) := by
                      rw [show d :: (rest2 ++ suf) = (d :: rest2) ++ suf from rfl]
                      rw [List.drop_append_of_le_length (by omega)]
                      rw [hr3]
                      rfl
                    rw [hdrop]
                    simp only []
                    rw [if_pos hx, if_neg hdig]
                    simp only [hlk]
                    have hb4 : rest4.length + suf.length ≤ f := by simp at hb; omega
                    rw [ih rest4 s2 suf hb4 hs2]
                    rw [show fmtT subs (f + 1) suf = fmtT subs f suf from
                      fmtT_fuel subs (f + 1) suf f (by omega) (by omega)]
                    cases hsf : fmtT subs f suf <;>
                      simp [Except.map, hmap, List.append_assoc]
              · rw [if_neg hx] at hok
                exact Except.noConfusion hok
      · by_cases hcr : c = rbrace
        · subst hcr
          cases rest with
          | nil =>
            rw [fmtT_close_nil] at hok
            exact Except.noConfusion hok
          | cons d rest2 =>
            by_cases hdr : d = rbrace
            · subst hdr
              rw [fmtT_esc_r] at hok
              obtain ⟨s2, hs2, hmap⟩ := map_cons_ok hok
              have hb2 : rest2.length + suf.length ≤ f := by simp at hb; omega
              show fmtT subs (f + 1) (rbrace :: rbrace :: (rest2 ++ suf)) = _
              rw [fmtT_esc_r]
              rw [ih rest2 s2 suf hb2 hs2]
              rw [show fmtT subs (f + 1) suf = fmtT subs f suf from
                fmtT_fuel subs (f + 1) suf f (by omega) (by omega)]
              cases hsf : fmtT subs f suf <;> simp [Except.map, hmap]
            · rw [fmtT_close_bad subs f d rest2 hdr] at hok
              exact Except.noConfusion hok
        · rw [fmtT_lit subs f c rest hcl hcr] at hok
          obtain ⟨s2, hs2, hmap⟩ := map_cons_ok hok
          show fmtT subs (f + 1) (c :: (rest ++ suf)) = _
          rw [fmtT_lit subs f c (rest ++ suf) hcl hcr]
          rw [ih rest s2 suf hb' hs2]
          rw [show fmtT subs (f + 1) suf = fmtT subs f suf from
            fmtT_fuel subs (f + 1) suf f (by omega) (by omega)]
          cases hsf : fmtT subs f suf <;> simp [Except.map, hmap]

lemma takeWhile_stop_append {p : Char → Bool} (suf : List Char) (q : Char)
    (hq : p q = false) :
    ∀ (k : List Char), (∀ c ∈ k, p c = true) → (k ++ q :: suf).takeWhile p = k := by
  intro k
  induction k with
  | nil =>
    intro _
    rw [List.nil_append, List.takeWhile_cons, if_neg (by simp [hq])]
  | cons x xs ih =>
    intro h
    rw [List.cons_append, List.takeWhile_cons, if_pos (h x (by simp))]
    rw [ih (fun c hc => h c (List.mem_cons_of_mem _ hc))]

lemma fmtT_keyhead (subs : List (List Char × List Char)) (fuel : Nat) (k suf : List Char)
    (hk : k ≠ []) (hkc : ∀ c ∈ k, fieldNameEnd c = false ∧ c ≠ lbrace)
    (hdig : k.all Char.isDigit = false)
    (hlk : lookupSub subs k = none) :
    fmtT subs (fuel + 1) (lbrace :: (k ++ rbrace :: suf)) = .error (.keyErr k) := by
  obtain ⟨k0, krest, rfl⟩ : ∃ k0 krest, k = k0 :: krest := by
    cases k with
    | nil => exact absurd rfl hk
    | cons a b => exact ⟨a, b, rfl⟩
  rw [show (k0 :: krest) ++ rbrace :: suf = k0 :: (krest ++ rbrace :: suf) from rfl]
  rw [fmtT_field subs fuel k0 (krest ++ rbrace :: suf) (hkc k0 (by simp)).2]
  have htw : (k0 :: (krest ++ rbrace :: suf)).takeWhile (fun c2 => !fieldNameEnd c2)
      = k0 :: krest := by
    rw [show k0 :: (krest ++ rbrace :: suf) = (k0 :: krest) ++ rbrace :: suf from rfl]
    exact takeWhile_stop_append suf rbrace (by decide) (k0 :: krest)
      (fun c hc => by simp [(hkc c hc).1])
  rw [htw]
  have hdrop : (k0 :: (krest ++ rbrace :: suf)).drop (k0 :: krest).length
      = rbrace :: suf := by
    rw [show k0 :: (krest ++ rbrace :: suf) = (k0 :: krest) ++ rbrace :: suf from rfl]
    exact List.drop_left _ _
  rw [hdrop]
  simp only []
  rw [if_pos trivial, if_neg (by simp [hdig])]
  simp only [hlk]

lemma occursIn_nil_pat (t : List Char) : occursIn [] t = true := by
  cases t <;> rfl

lemma occursIn_cons (pat t : List Char) (c : Char) (h : occursIn pat t = true) :
    occursIn pat (c :: t) = true := by
  unfold occursIn at h ⊢
  obtain ⟨i, hi⟩ := Option.isSome_iff_exists.mp h
  simp only [firstOccIdx]
  by_cases hp : pat.isPrefixOf (c :: t) = true
  · simp [hp]
  · simp [hp, hi]

lemma occursIn_append_left (pat a t : List Char) (h : occursIn pat t = true) :
    occursIn pat (a ++ t) = true := by
  induction a with
  | nil => simpa using h
  | cons c xs ih => exact occursIn_cons pat (xs ++ t) c ih

lemma occursIn_append_right (pat b : List Char) :
    ∀ (t : List Char), occursIn pat t = true → occursIn pat (t ++ b) = true := by
  intro t
  induction t with
  | nil =>
    intro h
    have hpat : pat = [] := by
      by_contra hne
      unfold occursIn firstOccIdx at h
      rw [if_neg (by simpa [List.isEmpty_iff] using hne)] at h
      simp at h
    subst hpat
    simpa using occursIn_nil_pat b
  | cons c t ih =>
    intro h
    unfold occursIn at h
    simp only [firstOccIdx] at h
    by_cases hp : pat.isPrefixOf (c :: t) = true
    · have hp2 : pat.isPrefixOf (c :: (t ++ b)) = true := by
        rw [List.isPrefixOf_iff_prefix] at hp ⊢
        refine List.IsPrefix.trans hp ?_
        rw [show c :: (t ++ b) = (c :: t) ++ b from rfl]
        exact List.prefix_append _ _
      show occursIn pat (c :: (t ++ b)) = true
      unfold occursIn
      simp only [firstOccIdx]
      simp [hp2]
    · rw [if_neg hp] at h
      have ht : occursIn pat t = true := by
        unfold occursIn
        cases hfi : firstOccIdx pat t with
        | none => rw [hfi] at h; simp at h
        | some i => simp
      exact occursIn_cons pat (t ++ b) c (ih ht)

lemma occursIn_self_append (k y : List Char) : occursIn k (k ++ y) = true := by
  cases k with
  | nil => exact occursIn_nil_pat y
  | cons c kr =>
    rw [List.cons_append]
    unfold occursIn
    simp only [firstOccIdx]
    have hp : (c :: kr).isPrefixOf (c :: (kr ++ y)) = true := by
      rw [List.isPrefixOf_iff_prefix]
      rw [show c :: (kr ++ y) = (c :: kr) ++ y from rfl]
      exact List.prefix_append _ _
    simp [hp]

lemma lookupSub_buildSubs_none (m : Record) (z k : List Char)
    (h : ∀ f ∈ validFieldsSorted, k ≠ f) : lookupSub (buildSubs m z) k = none := by
  unfold lookupSub
  have hnone : (buildSubs m z).find? (fun p => p.1 = k) = none := by
    rw [List.find?_eq_none]
    intro x hx
    simp only [buildSubs, List.mem_cons, List.not_mem_nil, or_false] at hx
    rcases hx with rfl | rfl | rfl | rfl | rfl | rfl | rfl | rfl | rfl | rfl | rfl | rfl
      | rfl | rfl | rfl
    all_goals
      simp only [decide_eq_true_eq]
      intro heq
      exact h _ (by decide) heq.symm
  rw [hnone]
  rfl

lemma dropWhile_eq_self_of_all {p : Char → Bool} :
    ∀ (l : List Char), (∀ c ∈ l, p c = false) → l.dropWhile p = l := by
  intro l
  induction l with
  | nil =>
    intro _
    rfl
  | cons x xs ih =>
    intro h
    rw [List.dropWhile_cons, if_neg (by simp [h x (by simp)])]

lemma escAll_plain :
    ∀ (k : List Char), (∀ c ∈ k, reprPlain c = true) → escAll squote k = k := by
  intro k
  induction k with
  | nil =>
    intro _
    rfl
  | cons x xs ih =>
    intro h
    have hx := h x (by simp)
    simp only [reprPlain, Bool.and_eq_true, decide_eq_true_eq] at hx
    have hesc : reprEsc squote x = [x] := by
      unfold reprEsc
      rw [if_neg hx.2, if_neg hx.1.2,
        if_neg (by intro he; rw [he] at hx; exact absurd hx.1.1.1 (by decide)),
        if_neg (by intro he; rw [he] at hx; exact absurd hx.1.1.1 (by decide)),
        if_neg (by intro he; rw [he] at hx; exact absurd hx.1.1.1 (by decide)),
        if_neg (by
          simp only [Bool.or_eq_true, decide_eq_true_eq]
          have h1 := hx.1.1.1
          have h2 := hx.1.1.2
          omega)]
    show reprEsc squote x ++ escAll squote xs = x :: xs
    rw [hesc, ih (fun c hc => h c (List.mem_cons_of_mem _ hc))]
    rfl

lemma pyRepr_plain (k : List Char) (h : ∀ c ∈ k, reprPlain c = true) :
    pyRepr k = squote :: k ++ [squote] := by
  have hq : k.any (fun c => c = squote) = false := by
    rw [List.any_eq_false]
    intro x hx
    have hx2 := h x hx
    simp only [reprPlain, Bool.and_eq_true, decide_eq_true_eq] at hx2
    simp only [decide_eq_true_eq]
    exact hx2.1.2
  unfold pyRepr
  simp [hq, escAll_plain k h]

lemma invalidFieldOf_plain (k : List Char) (h : ∀ c ∈ k, reprPlain c = true) :
    invalidFieldOf k = k := by
  have hknot : ∀ c ∈ k, (fun c2 => decide (c2 = squote)) c = false := by
    intro c hc
    have hc2 := h c hc
    simp only [reprPlain, Bool.and_eq_true, decide_eq_true_eq] at hc2
    simp only [decide_eq_false_iff_not]
    exact hc2.1.2
  unfold invalidFieldOf stripSquotes
  rw [pyRepr_plain k h]
  cases k with
  | nil => decide
  | cons x xs =>
    have h1 : trimLeft (fun c2 => c2 = squote) (squote :: (x :: xs) ++ [squote])
        = (x :: xs) ++ [squote] := by
      unfold trimLeft
      rw [show squote :: (x :: xs) ++ [squote] = squote :: ((x :: xs) ++ [squote]) from rfl]
      rw [List.dropWhile_cons, if_pos (by decide)]
      rw [show (x :: xs) ++ [squote] = x :: (xs ++ [squote]) from rfl]
      rw [List.dropWhile_cons, if_neg (by simp [hknot x (by simp)])]
    rw [h1]
    unfold trimRight
    rw [List.reverse_append]
    rw [show ([squote] : List Char).reverse ++ (x :: xs).reverse
        = squote :: (x :: xs).reverse from rfl]
    rw [List.dropWhile_cons, if_pos (by decide)]
    rw [dropWhile_eq_self_of_all ((x :: xs).reverse)
      (fun c hc => hknot c (List.mem_reverse.mp hc))]
    exact List.reverse_reverse _

set_option maxRecDepth 8192 in
/-- C8 (amended): a simple named placeholder whose name is outside the 15-name
vocabulary makes `build_destination_path` fail, for every record and zip stem,
with the template-field `ValueError` whose message contains the offending name
and every valid field name - provided the part of the template before the bad
placeholder formats successfully (in particular whenever it is
placeholder-free), the name uses no field-name punctuation (`.`, `[`, `!`,
`:`, braces), is not a positional index (empty or all digits: those raise an
uncaught `IndexError` instead, see the counterexample), and consists of
characters the `KeyError` repr prints verbatim. -/
theorem C8_template_field_error
    (m : Record) (zipStem pre k suf s : List Char)
    (hok : fmtTemplate (buildSubs m zipStem) pre = .ok s)
    (hkc : ∀ c ∈ k, fieldNameEnd c = false ∧ c ≠ lbrace)
    (hdig : k.all Char.isDigit = false)
    (hplain : ∀ c ∈ k, reprPlain c = true)
    (hkf : ∀ f ∈ validFieldsSorted, k ≠ f) :
    build_destination_path (pre ++ lbrace :: (k ++ rbrace :: suf)) m zipStem
        = .error (.templateFieldError (invalidFieldMsg k))
      ∧ occursIn k (invalidFieldMsg k) = true
      ∧ ∀ f ∈ validFieldsSorted, occursIn f (invalidFieldMsg k) = true := by
  have hk : k ≠ [] := by
    intro he
    rw [he] at hdig
    simp at hdig
  have hio : invalidFieldOf k = k := invalidFieldOf_plain k hplain
  refine ⟨?_, ?_, ?_⟩
  · have hlk : lookupSub (buildSubs m zipStem) k = none :=
      lookupSub_buildSubs_none m zipStem k hkf
    have hokF : fmtT (buildSubs m zipStem)
        (pre ++ lbrace :: (k ++ rbrace :: suf)).length pre = .ok s := by
      rw [fmtT_fuel (buildSubs m zipStem) ((pre ++ lbrace :: (k ++ rbrace :: suf)).length)
        pre pre.length (by rw [List.length_append]; omega) (le_refl _)]
      exact hok
    have happ := fmtT_append (buildSubs m zipStem)
      (pre ++ lbrace :: (k ++ rbrace :: suf)).length pre s (lbrace :: (k ++ rbrace :: suf))
      (by rw [List.length_append]) hokF
    have hF : (pre ++ lbrace :: (k ++ rbrace :: suf)).length
        = (pre.length + (k ++ rbrace :: suf).length) + 1 := by
      simp only [List.length_append, List.length_cons]
      omega
    have hkey : fmtT (buildSubs m zipStem) ((pre.length + (k ++ rbrace :: suf).length) + 1)
        (lbrace :: (k ++ rbrace :: suf)) = .error (.keyErr k) :=
      fmtT_keyhead (buildSubs m zipStem) (pre.length + (k ++ rbrace :: suf).length)
        k suf hk hkc hdig hlk
    have hT : fmtTemplate (buildSubs m zipStem) (pre ++ lbrace :: (k ++ rbrace :: suf))
        = .error (.keyErr k) := by
      unfold fmtTemplate
      rw [happ, hF, hkey]
      rfl
    unfold build_destination_path
    rw [hT]
  · have hmsg : invalidFieldMsg k
        = ("Invalid template field: ".toList ++ [lbrace])
          ++ (k ++ ([rbrace] ++ ("\nValid fields are: ".toList ++ (validFieldsJoined
              ++ "\nCheck your template for typos!".toList)))) := by
      simp [invalidFieldMsg, hio, List.append_assoc]
    rw [hmsg]
    exact occursIn_append_left k _ _ (occursIn_self_append k _)
  · intro f hf
    have hj : occursIn f validFieldsJoined = true := by
      fin_cases hf <;> decide
    have h2 : occursIn f (validFieldsJoined ++ "\nCheck your template for typos!".toList)
        = true := occursIn_append_right f _ validFieldsJoined hj
    have hmsg : invalidFieldMsg k
        = ("Invalid template field: ".toList ++ [lbrace] ++ k ++ [rbrace]
            ++ "\nValid fields are: ".toList)
          ++ (validFieldsJoined ++ "\nCheck your template for typos!".toList) := by
      simp [invalidFieldMsg, hio, List.append_assoc]
    rw [hmsg]
    exact occursIn_append_left f _ _ h2

/-- Witness for C8: the template is exactly the bad placeholder, at the
record and stem used elsewhere in this development. -/
theorem C8_witness :
    build_destination_path ([] ++ lbrace :: ("bogus".toList ++ rbrace :: []))
        zorroRecord ("Zorro".toList)
        = .error (.templateFieldError (invalidFieldMsg ("bogus".toList)))
      ∧ occursIn ("bogus".toList) (invalidFieldMsg ("bogus".toList)) = true
      ∧ ∀ f ∈ validFieldsSorted, occursIn f (invalidFieldMsg ("bogus".toList)) = true :=
  C8_template_field_error zorroRecord ("Zorro".toList) [] ("bogus".toList) [] []
    rfl (by decide) (by decide) (by decide) (by decide)

/-- C8 is refuted as universally stated: the placeholders of the templates
`{0}` and `{}` have names (`0` and the empty name) outside the valid
vocabulary, yet the program raises an uncaught `IndexError` (a positional
replacement index with no positional arguments), not the template-field
`ValueError` - the `except KeyError` does not catch it.  `indexError` is a
different constructor from every `templateFieldError msg`. -/
theorem C8_counterexample :
    build_destination_path ("{0}".toList) zorroRecord ("Zorro".toList)
        = .error .indexError
    ∧ build_destination_path ("{}".toList) zorroRecord ("Zorro".toList)
        = .error .indexError
    ∧ "0".toList ∉ validFieldsSorted
    ∧ ∀ msg, BuildErr.indexError ≠ BuildErr.templateFieldError msg :=
  ⟨by decide, by decide, by decide, fun _ h => BuildErr.noConfusion h⟩

/-!  Field scoping (claim C1). -/

lemma firstOccIdx_some_elim {pat t : List Char} {i : Nat} (h : firstOccIdx pat t = some i) :
    pat.isPrefixOf (t.drop i) = true ∧ ∀ j < i, pat.isPrefixOf (t.drop j) = false := by
  induction t generalizing i with
  | nil =>
    simp only [firstOccIdx] at h
    by_cases hp : pat.isEmpty
    · rw [if_pos hp] at h
      injection h with hi
      subst hi
      have hpe : pat = [] := by simpa using hp
      subst hpe
      refine ⟨by simp [List.isPrefixOf], ?_⟩
      intro j hj
      exact absurd hj (by omega)
    · rw [if_neg hp] at h
      exact Option.noConfusion h
  | cons c t ih =>
    simp only [firstOccIdx] at h
    by_cases hp : pat.isPrefixOf (c :: t) = true
    · rw [if_pos hp] at h
      injection h with hi
      subst hi
      refine ⟨by simpa using hp, ?_⟩
      intro j hj
      exact absurd hj (by omega)
    · rw [if_neg hp] at h
      cases hfi : firstOccIdx pat t with
      | none => rw [hfi] at h; exact Option.noConfusion h
      | some i' =>
        rw [hfi] at h
        simp only [Option.map_some'] at h
        injection h with hi
        subst hi
        obtain ⟨hocc, hmin⟩ := ih hfi
        refine ⟨by simpa using hocc, ?_⟩
        intro j hj
        cases j with
        | zero =>
          simpa using Bool.eq_false_iff.mpr hp
        | succ j' =>
          have : pat.isPrefixOf (t.drop j') = false := hmin j' (by omega)
          simpa using this

lemma firstOccIdx_le_length {pat t : List Char} {i : Nat}
    (h : firstOccIdx pat t = some i) : i ≤ t.length := by
  induction t generalizing i with
  | nil =>
    simp only [firstOccIdx] at h
    by_cases hp : pat.isEmpty
    · rw [if_pos hp] at h
      injection h with hi
      omega
    · rw [if_neg hp] at h
      exact Option.noConfusion h
  | cons c t ih =>
    simp only [firstOccIdx] at h
    by_cases hp : pat.isPrefixOf (c :: t) = true
    · rw [if_pos hp] at h
      injection h with hi
      omega
    · rw [if_neg hp] at h
      cases hfi : firstOccIdx pat t with
      | none => rw [hfi] at h; exact Option.noConfusion h
      | some i' =>
        rw [hfi] at h
        simp only [Option.map_some'] at h
        injection h with hi
        have hih := ih hfi
        simp only [List.length_cons]
        omega

lemma firstOccIdx_append_stable {pat t : List Char} (b : List Char) {i : Nat}
    (h : firstOccIdx pat t = some i) : firstOccIdx pat (t ++ b) = some i := by
  obtain ⟨hocc, hmin⟩ := firstOccIdx_some_elim h
  have hil := firstOccIdx_le_length h
  have hlen : i + pat.length ≤ t.length := by
    have hle := (List.isPrefixOf_iff_prefix.mp hocc).length_le
    rw [List.length_drop] at hle
    omega
  apply firstOccIdx_eq_some_of
  · rw [List.drop_append_of_le_length (by omega)]
    rw [List.isPrefixOf_iff_prefix] at hocc ⊢
    exact hocc.trans (List.prefix_append _ _)
  · intro j hj
    cases hcase : pat.isPrefixOf ((t ++ b).drop j) with
    | false => rfl
    | true =>
      have h2 := isPrefixOf_of_append_bound hcase (by omega)
      rw [hmin j hj] at h2
      exact Bool.noConfusion h2

lemma gameInfoSection_append_stable {t : List Char} (b : List Char) {i e : Nat}
    (hGI : firstOccIdx ("GAME INFO".toList) t = some i)
    (hGH : firstOccIdx ("GAME HISTORY".toList) (t.drop (i + 9)) = some e) :
    gameInfoSection (t ++ b) = gameInfoSection t := by
  have hGI' := firstOccIdx_append_stable b hGI
  have hleni : i + 9 ≤ t.length := by
    obtain ⟨hocc, _⟩ := firstOccIdx_some_elim hGI
    have hle := (List.isPrefixOf_iff_prefix.mp hocc).length_le
    rw [List.length_drop] at hle
    have h9 : ("GAME INFO".toList).length = 9 := rfl
    rw [h9] at hle
    omega
  have hdrop : (t ++ b).drop (i + 9) = t.drop (i + 9) ++ b :=
    List.drop_append_of_le_length hleni
  have hGH' : firstOccIdx ("GAME HISTORY".toList) ((t ++ b).drop (i + 9)) = some e := by
    rw [hdrop]
    exact firstOccIdx_append_stable b hGH
  have hlene : e + 12 ≤ (t.drop (i + 9)).length := by
    obtain ⟨hocc, _⟩ := firstOccIdx_some_elim hGH
    have hle := (List.isPrefixOf_iff_prefix.mp hocc).length_le
    rw [List.length_drop] at hle
    have h12 : ("GAME HISTORY".toList).length = 12 := rfl
    rw [h12] at hle
    omega
  unfold gameInfoSection
  rw [hGI', hGI]
  simp only []
  rw [hGH', hGH]
  simp only []
  rw [hdrop]
  rw [List.length_drop] at hlene
  rw [List.take_append_of_le_length (by rw [List.length_drop]; omega)]

/-- C1 is refuted on two concrete texts: the Language value is extracted from
outside the GAME INFO section (the label does not even occur in the section),
and the Comment label matches in the middle of a line even though no line of
the section starts with it. -/
theorem C1_counterexample :
    (parse_version_nfo
        ("GAME INFO\nName: A\nGenre: P\nGAME HISTORY\nLanguage: G\n".toList)).map
        (fun r => r.language) = some ("G".toList)
    ∧ occursIn ("Language:".toList)
        (gameInfoSection
          ("GAME INFO\nName: A\nGenre: P\nGAME HISTORY\nLanguage: G\n".toList)) = false
    ∧ (parse_version_nfo ("GAME INFO\nName: A\nGenre: P\nNo Comment: hi\n".toList)).map
        (fun r => r.comment) = some (some ("hi".toList))
    ∧ specLineAnchoredHit ("Comment:".toList)
        (gameInfoSection ("GAME INFO\nName: A\nGenre: P\nNo Comment: hi\n".toList))
        = false := by
  refine ⟨?_, ?_, ?_, ?_⟩ <;> decide

/-- C1 (amended): only the Name match is line-anchored, and only Name,
Unique-ID, Developer, Coding, Graphics, Music and Comment are confined to the
GAME INFO section; those section-scoped fields are unchanged by any text added
after a well-delimited section (GAME INFO present, GAME HISTORY after it),
while the remaining fields are searched in the whole text without anchoring. -/
theorem C1_field_scopes
    (t b : List Char) (i e : Nat) (r r' : Record)
    (hGI : firstOccIdx ("GAME INFO".toList) t = some i)
    (hGH : firstOccIdx ("GAME HISTORY".toList) (t.drop (i + 9)) = some e)
    (hp : parse_version_nfo t = some r)
    (hp' : parse_version_nfo (t ++ b) = some r') :
    r'.name = r.name ∧ r'.unique_id = r.unique_id ∧ r'.developer = r.developer
      ∧ r'.coding = r.coding ∧ r'.graphics = r.graphics ∧ r'.music = r.music
      ∧ r'.comment = r.comment := by
  have hsec := gameInfoSection_append_stable b hGI hGH
  simp only [parse_version_nfo] at hp hp'
  rw [hsec] at hp'
  cases hn : searchNameIn (gameInfoSection t) with
  | none =>
    rw [hn] at hp
    simp only [] at hp
    exact Option.noConfusion hp
  | some n =>
    rw [hn] at hp hp'
    simp only [] at hp hp'
    cases hg : searchGenreIn t with
    | none =>
      rw [hg] at hp
      simp only [] at hp
      exact Option.noConfusion hp
    | some g =>
      rw [hg] at hp
      simp only [] at hp
      cases hg' : searchGenreIn (t ++ b) with
      | none =>
        rw [hg'] at hp'
        simp only [] at hp'
        exact Option.noConfusion hp'
      | some g2 =>
        rw [hg'] at hp'
        simp only [] at hp'
        injection hp with hr
        injection hp' with hr'
        subst hr
        subst hr'
        exact ⟨rfl, rfl, rfl, rfl, rfl, rfl, rfl⟩

/-- Witness for C1: a concrete well-delimited text and an appended tail; both
parses succeed and the seven section-scoped fields agree. -/
theorem C1_witness :
    firstOccIdx ("GAME INFO".toList) c1Base = some 0
    ∧ firstOccIdx ("GAME HISTORY".toList) (c1Base.drop 9) = some 18
    ∧ parse_version_nfo c1Base = some c1rT
    ∧ parse_version_nfo (c1Base ++ c1Ext) = some c1rTB
    ∧ (c1rTB.name = c1rT.name ∧ c1rTB.unique_id = c1rT.unique_id
        ∧ c1rTB.developer = c1rT.developer ∧ c1rTB.coding = c1rT.coding
        ∧ c1rTB.graphics = c1rT.graphics ∧ c1rTB.music = c1rT.music
        ∧ c1rTB.comment = c1rT.comment) :=
  ⟨by decide, by decide, by decide, by decide,
    C1_field_scopes c1Base c1Ext 0 18 c1rT c1rTB (by decide) (by decide)
      (by decide) (by decide)⟩

end GB64
